import Mathlib

/-!
Shallow embedding of `runcosi.py` (dockstore-tool-cosi2): a driver that runs one
block of cosi2 simulator replicas.  Side effects are made explicit: the file
system is an association list from names to file data, the external simulator
and the entropy source are oracles, and Python exceptions are an error type
threaded through `Except`.  Python floats are modelled as exact rationals.
-/

/-- Python exception classes relevant to the program.  `subprocessError` covers
`subprocess.SubprocessError` (including `CalledProcessError` raised by
`subprocess.check_call` on a non-zero exit status); the others are never
subclasses of it. -/
inductive PyExc where
  | subprocessError
  | valueError
  | runtimeError
  | osError
deriving Repr, DecidableEq

/-- A stored file: its on-disk size in bytes (what `os.path.getsize` reports)
and its raw stored bytes, modelled as a string. -/
structure FileData where
  size : Nat
  raw : String
deriving Repr, DecidableEq

/-- File data for a plain text file written by the program itself. -/
def fileOf (s : String) : FileData := ⟨s.length, s⟩

/-- The file system: newest entry first; lookup takes the first match. -/
abbrev FileSys : Type := List (String × FileData)

/-- Look a file up by name. -/
def FileSys.get (fs : FileSys) (name : String) : Option FileData :=
  (List.find? (fun kv => kv.1 == name) fs).map (fun kv => kv.2)

/-- Write (create or overwrite) a file. -/
def FileSys.set (fs : FileSys) (name : String) (fd : FileData) : FileSys :=
  (name, fd) :: fs

/-- Apply a batch of file writes in order (used for files an external process drops). -/
def FileSys.setMany (fs : FileSys) (writes : List (String × FileData)) : FileSys :=
  writes.foldl (fun a kv => FileSys.set a kv.1 kv.2) fs

/-- Model of `dump_file(fname, value)`: store a string in a file. -/
def dump_file (fs : FileSys) (fname : String) (value : String) : FileSys :=
  FileSys.set fs fname (fileOf value)

/-- Computable model of `str.endswith`. -/
def strEndsWith (s suffix : String) : Bool := List.isSuffixOf suffix.toList s.toList

/-- Model of reading a whole file through `open_or_gzopen(fname)` in text mode:
if the name ends in `.gz` the stored bytes go through the gunzip oracle,
otherwise they are returned as they are. -/
def open_or_gzopen_read (gunzip : String → Except PyExc String) (fname : String)
    (fd : FileData) : Except PyExc String :=
  if strEndsWith fname ".gz" then gunzip fd.raw else Except.ok fd.raw

/-- Model of `slurp_file(fname, maxSizeMb=50)`: a missing file raises `OSError`
from `os.path.getsize`; when `maxSizeMb` is truthy (neither `None` nor `0`) a
file larger than `maxSizeMb*1024*1024` bytes raises `RuntimeError`; otherwise
the whole content is read, transparently gunzipped for `.gz` names. -/
def slurp_file (gunzip : String → Except PyExc String) (fs : FileSys) (fname : String)
    (maxSizeMb : Option Nat := some 50) : Except PyExc String :=
  match FileSys.get fs fname with
  | none => Except.error PyExc.osError
  | some fd =>
    match maxSizeMb with
    | none => open_or_gzopen_read gunzip fname fd
    | some m =>
      if m ≠ 0 ∧ fd.size > m * 1024 * 1024 then Except.error PyExc.runtimeError
      else open_or_gzopen_read gunzip fname fd

/-- Python whitespace as used by `str.strip()` and `str.split()`. -/
def pyIsSpace (c : Char) : Bool :=
  c == ' ' || c == '\t' || c == '\n' || c == '\r' || c == '\x0b' || c == '\x0c'

/-- Model of `str.strip()`. -/
def pyStrip (s : String) : String :=
  String.mk (((s.toList.dropWhile pyIsSpace).reverse.dropWhile pyIsSpace).reverse)

/-- Worker for `pySplit`: `acc` holds the current token, reversed. -/
def pySplitAux : List Char → List Char → List String
  | [], [] => []
  | [], acc => [String.mk acc.reverse]
  | c :: rest, acc =>
    if pyIsSpace c then
      match acc with
      | [] => pySplitAux rest []
      | _ => String.mk acc.reverse :: pySplitAux rest []
    else pySplitAux rest (c :: acc)

/-- Model of `str.split()` with no argument: split on whitespace runs,
producing no empty tokens. -/
def pySplit (s : String) : List String := pySplitAux s.toList []

/-- Numeric value of a list of decimal digit characters. -/
def decDigitsVal (cs : List Char) : Nat :=
  cs.foldl (fun a c => a * 10 + (c.toNat - 48)) 0

/-- Split a character list on a separator character, as `str.split(sep)` does
(adjacent separators give empty fields). -/
def splitOnChar (sep : Char) : List Char → List (List Char)
  | [] => [[]]
  | c :: rest =>
    match splitOnChar sep rest with
    | [] => [[]]
    | h :: t => if c = sep then [] :: h :: t else (c :: h) :: t

/-- Model of Python `float()` on the token shapes this program feeds it
(an optional sign, then a decimal numeral with an optional fractional part),
returning the exact rational value. -/
def parsePyFloat (s : String) : Option ℚ :=
  let (sgn, body) : ℚ × List Char :=
    match s.toList with
    | '-' :: r => (-1, r)
    | '+' :: r => (1, r)
    | cs => (1, cs)
  match splitOnChar '.' body with
  | [ics] =>
    if ics.isEmpty || !ics.all Char.isDigit then none
    else some (sgn * (decDigitsVal ics : ℚ))
  | [ics, fcs] =>
    if (ics.isEmpty && fcs.isEmpty) || !ics.all Char.isDigit || !fcs.all Char.isDigit then none
    else some (sgn * ((decDigitsVal ics : ℚ) + (decDigitsVal fcs : ℚ) / 10 ^ fcs.length))
  | _ => none

/-- Model of Python `int()` applied to a float: truncation toward zero. -/
def pyInt (q : ℚ) : Int := Int.tdiv q.num (q.den : Int)

/-- Model of parsing the sweep-info file:
`map(float, slurp_file(sweepInfoFile).strip().split())` unpacked into exactly
seven values.  A wrong field count or an unparsable token is a `ValueError`. -/
def parseSweep (t : String) : Option (ℚ × ℚ × ℚ × ℚ × ℚ × ℚ × ℚ) :=
  match (pySplit (pyStrip t)).mapM parsePyFloat with
  | some [a, b, c, d, e, f, g] => some (a, b, c, d, e, f, g)
  | _ => none

/-- JSON-representable values as Python produces them: strings, ints, floats
(exact rationals), booleans, arrays and objects (ordered key/value lists). -/
inductive JVal where
  | jstr (s : String)
  | jint (n : Int)
  | jrat (q : ℚ)
  | jbool (b : Bool)
  | jarr (elems : List JVal)
  | jobj (entries : List (String × JVal))
deriving Repr

/-- A Python dict with string keys, in insertion order. -/
abbrev PyDict : Type := List (String × JVal)

/-- Dict lookup by key. -/
def pyLookup (k : String) (d : PyDict) : Option JVal :=
  (List.find? (fun kv => kv.1 == k) d).map (fun kv => kv.2)

/-- The decimal digit character for a digit value. -/
def digitChar : Nat → Char
  | 0 => '0' | 1 => '1' | 2 => '2' | 3 => '3' | 4 => '4'
  | 5 => '5' | 6 => '6' | 7 => '7' | 8 => '8' | 9 => '9'
  | _ => '*'

/-- Fuel-driven decimal rendering of a natural number (most significant digit
first); renders `0` as the empty list. -/
def natDecCharsAux : Nat → Nat → List Char
  | 0, _ => []
  | f + 1, n => if n = 0 then [] else natDecCharsAux f (n / 10) ++ [digitChar (n % 10)]

/-- Decimal rendering of a natural number, as `str()` does. -/
def natDecChars (n : Nat) : List Char :=
  if n = 0 then ['0'] else natDecCharsAux n n

/-- Decimal rendering of an integer, as `str()` does. -/
def intDecChars (n : Int) : List Char :=
  if n < 0 then '-' :: natDecChars n.natAbs else natDecChars n.natAbs

/-- Fuel-driven multiplicity of `p` in `n`. -/
def maxPowAux (p : Nat) : Nat → Nat → Nat
  | 0, _ => 0
  | f + 1, n => if 2 ≤ p ∧ 0 < n ∧ n % p = 0 then maxPowAux p f (n / p) + 1 else 0

/-- Largest `k` with `p ^ k ∣ n` (for `2 ≤ p`, `0 < n`). -/
def maxPow (p n : Nat) : Nat := maxPowAux p n n

/-- Number of decimal fraction digits needed for a rational with a
`2^a * 5^b` denominator. -/
def floatExp (q : ℚ) : Nat := max (maxPow 2 q.den) (maxPow 5 q.den)

/-- Scaled integer mantissa: `q = floatMantissa q / 10 ^ floatExp q` whenever
the denominator of `q` divides that power of ten. -/
def floatMantissa (q : ℚ) : Int := q.num * 10 ^ floatExp q / (q.den : Int)

/-- The fraction digits of a float rendering: exactly `e` digits (at least
one), zero-padded on the left. -/
def fracDigitsChars (e : Nat) (frac : Nat) : List Char :=
  if e = 0 then ['0']
  else List.replicate (e - (natDecChars frac).length) '0' ++ natDecChars frac

/-- Decimal rendering of a float value (a rational with a `2^a * 5^b`
denominator), in the `digits.digits` form `repr()` uses for such floats. -/
def floatDecChars (q : ℚ) : List Char :=
  let e := floatExp q
  let m := floatMantissa q
  (if m < 0 then ['-'] else []) ++
    natDecChars (m.natAbs / 10 ^ e) ++ '.' :: fracDigitsChars e (m.natAbs % 10 ^ e)

/-- Lower-case hexadecimal digit character. -/
def hexChar : Nat → Char
  | 0 => '0' | 1 => '1' | 2 => '2' | 3 => '3' | 4 => '4'
  | 5 => '5' | 6 => '6' | 7 => '7' | 8 => '8' | 9 => '9'
  | 10 => 'a' | 11 => 'b' | 12 => 'c' | 13 => 'd' | 14 => 'e' | 15 => 'f'
  | _ => '*'

/-- Four-digit hexadecimal rendering used by `\uXXXX` escapes. -/
def toHex4 (n : Nat) : List Char :=
  [hexChar (n / 4096 % 16), hexChar (n / 256 % 16), hexChar (n / 16 % 16), hexChar (n % 16)]

/-- JSON escaping of one character with `ensure_ascii=True`: printable ASCII
other than quote and backslash is literal, everything else becomes `\uXXXX`
escapes, with a surrogate pair for characters beyond the basic plane. -/
def escapeChar (c : Char) : List Char :=
  if c = '"' then ['\\', '"']
  else if c = '\\' then ['\\', '\\']
  else if c = '\x08' then ['\\', 'b']
  else if c = '\t' then ['\\', 't']
  else if c = '\n' then ['\\', 'n']
  else if c = '\x0c' then ['\\', 'f']
  else if c = '\r' then ['\\', 'r']
  else if c.toNat < 32 then '\\' :: 'u' :: toHex4 c.toNat
  else if c.toNat < 127 then [c]
  else if c.toNat < 65536 then '\\' :: 'u' :: toHex4 c.toNat
  else
    ('\\' :: 'u' :: toHex4 (55296 + (c.toNat - 65536) / 1024)) ++
      ('\\' :: 'u' :: toHex4 (56320 + (c.toNat - 65536) % 1024))

/-- A JSON string literal: quote, escaped characters, quote. -/
def encodeStrChars (s : String) : List Char :=
  '"' :: (s.toList.flatMap escapeChar) ++ ['"']

/-- Rendering of a scalar JSON value (nested values never reach this in the
manifests this program writes). -/
def scalarChars : JVal → List Char
  | JVal.jstr s => encodeStrChars s
  | JVal.jint n => intDecChars n
  | JVal.jrat q => floatDecChars q
  | JVal.jbool true => ['t', 'r', 'u', 'e']
  | JVal.jbool false => ['f', 'a', 'l', 's', 'e']
  | _ => []

/-- Indentation for `json.dumps(..., indent=4)` at a nesting level. -/
def indentChars (lvl : Nat) : List Char := List.replicate (4 * lvl) ' '

/-- Stable ascending insertion of a key/value pair, as `sorted()` orders it. -/
def insortEntry (kv : String × JVal) : PyDict → PyDict
  | [] => [kv]
  | h :: t => if kv.1 < h.1 then kv :: h :: t else h :: insortEntry kv t

/-- Entries in the ascending, stable key order `json.dumps(..., sort_keys=True)`
uses. -/
def sortEntries (d : PyDict) : PyDict := d.foldr insortEntry []

/-- One `"key": value` line of a pretty-printed object. -/
def entryChars (lvl : Nat) (kv : String × JVal) : List Char :=
  indentChars lvl ++ encodeStrChars kv.1 ++ ':' :: ' ' :: scalarChars kv.2

/-- A flat (scalar-valued) object, pretty-printed with 4-space indentation and
sorted keys, as `json.dumps(d, indent=4, separators=(",", ": "),
sort_keys=True)` lays it out at nesting level `lvl`. -/
def flatObjChars (lvl : Nat) (d : PyDict) : List Char :=
  match sortEntries d with
  | [] => ['\x7b', '\x7d']
  | es =>
    '\x7b' :: '\n' :: List.intercalate [',', '\n'] (es.map (entryChars (lvl + 1))) ++
      '\n' :: indentChars lvl ++ ['\x7d']

/-- The full manifest text `_pretty_print_json` produces for
`dict(replicaInfos=[d0, d1, ...])` with flat replica dicts. -/
def manifestChars (ds : List PyDict) : List Char :=
  let arr : List Char :=
    match ds with
    | [] => ['[', ']']
    | _ =>
      '[' :: '\n' ::
        List.intercalate [',', '\n'] (ds.map (fun d => indentChars 2 ++ flatObjChars 2 d)) ++
        '\n' :: indentChars 1 ++ [']']
  '\x7b' :: '\n' :: indentChars 1 ++ encodeStrChars "replicaInfos" ++ ':' :: ' ' :: arr ++
    '\n' :: ['\x7d']

/-- Model of `_pretty_print_json` applied to the block manifest. -/
def writeManifestDicts (ds : List PyDict) : String := String.mk (manifestChars ds)

/-- The parsed command-line arguments of `do_main` (all required). -/
structure Args where
  paramFileCommon : String
  paramFile : String
  recombFile : String
  modelId : String
  simBlockId : String
  blockNum : Int
  numSimsInBlock : Nat
  maxAttempts : Int
  outJson : String
deriving Repr, DecidableEq

/-- Model of `random.SystemRandom().randint(0, 2147483646)`: the OS entropy
value is reduced into the inclusive range `[0, 2147483646]`. -/
def drawSeed (entropy : Nat) : Int := Int.ofNat (entropy % 2147483647)

/-- The tped output file name stem (`tpedPrefix` in the source). -/
def tpedPfx (args : Args) (replicaNum : Nat) : String :=
  args.simBlockId ++ "_rep" ++ toString replicaNum

/-- The trajectory file name for one replica. -/
def trajFile (args : Args) (replicaNum : Nat) : String :=
  args.simBlockId ++ "." ++ toString replicaNum ++ ".traj"

/-- The sweep-info file name for one replica. -/
def sweepInfoFile (replicaNum : Nat) : String :=
  "sweepinfo." ++ toString replicaNum ++ ".tsv"

/-- The empty placeholder file name for one replica. -/
def emptyFileName (replicaNum : Nat) : String :=
  "empty.rep" ++ toString replicaNum

/-- The packaged tped archive name for one replica. -/
def tpedsTarGz (args : Args) (replicaNum : Nat) : String :=
  args.simBlockId ++ "." ++ toString replicaNum ++ ".tpeds.tar.gz"

/-- The shell command `run_one_replica` builds for the simulator (`cosi2_cmd`
in the source, with the f-string fragments concatenated). -/
def cosi2_cmd (args : Args) (paramFile : String) (replicaNum : Nat) (randomSeed : Int) :
    String :=
  "(env COSI_NEWSIM=1 COSI_MAXATTEMPTS=" ++ toString args.maxAttempts ++
    " COSI_SAVE_TRAJ=" ++ trajFile args replicaNum ++
    " COSI_SAVE_SWEEP_INFO=" ++ sweepInfoFile replicaNum ++
    " coalescent -R " ++ args.recombFile ++ " -p " ++ paramFile ++
    " -v -g -r " ++ toString randomSeed ++
    " --genmapRandomRegions --drop-singletons .25 --tped " ++ tpedPfx args replicaNum ++ " )"

/-- The archive-packaging shell command. -/
def tarCmd (args : Args) (replicaNum : Nat) : String :=
  "tar cvfz " ++ tpedsTarGz args replicaNum ++ " " ++ tpedPfx args replicaNum ++ "_*.tped"

/-- The success-branch `replicaInfo` dict literal, with its keys in source
order.  `selPop` and `selBegPop` go through `int()`, the other four selection
fields stay floats. -/
def successDict (args : Args) (replicaNum : Nat) (randomSeed : Int)
    (selPop selGen selBegPop selBegGen selCoeff selFreq : ℚ) : PyDict :=
  [("modelId", JVal.jstr args.modelId),
   ("blockNum", JVal.jint args.blockNum),
   ("replicaNum", JVal.jint (Int.ofNat replicaNum)),
   ("succeeded", JVal.jbool true),
   ("randomSeed", JVal.jint randomSeed),
   ("tpeds", JVal.jstr (tpedsTarGz args replicaNum)),
   ("traj", JVal.jstr (trajFile args replicaNum)),
   ("selPop", JVal.jint (pyInt selPop)),
   ("selGen", JVal.jrat selGen),
   ("selBegPop", JVal.jint (pyInt selBegPop)),
   ("selBegGen", JVal.jrat selBegGen),
   ("selCoeff", JVal.jrat selCoeff),
   ("selFreq", JVal.jrat selFreq)]

/-- The failure-branch `failed_replica_info` dict literal, with its keys in
source order: the drawn seed is still recorded, the empty placeholder stands in
for both outputs, and every selection field is zero. -/
def failureDict (args : Args) (replicaNum : Nat) (randomSeed : Int) : PyDict :=
  [("modelId", JVal.jstr args.modelId),
   ("blockNum", JVal.jint args.blockNum),
   ("replicaNum", JVal.jint (Int.ofNat replicaNum)),
   ("succeeded", JVal.jbool false),
   ("randomSeed", JVal.jint randomSeed),
   ("tpeds", JVal.jstr (emptyFileName replicaNum)),
   ("traj", JVal.jstr (emptyFileName replicaNum)),
   ("selPop", JVal.jint 0),
   ("selGen", JVal.jrat 0),
   ("selBegPop", JVal.jint 0),
   ("selBegGen", JVal.jrat 0),
   ("selCoeff", JVal.jrat 0),
   ("selFreq", JVal.jrat 0)]

/-- The environment's behaviour for one replica attempt: the OS entropy the
seed is drawn from, the exit statuses of the two `subprocess.check_call`
invocations (simulator and `tar`), and the files the simulator process leaves
in the working directory. -/
structure ReplicaOutcome where
  entropy : Nat
  cosiExit : Nat
  tarExit : Nat
  simFiles : List (String × FileData)
deriving Repr

/-- Model of `run_one_replica(args, paramFile, replicaNum)`.  The `try` block
runs the simulator and `tar` through `check_call` (a non-zero exit raises
`subprocess.SubprocessError`, which the `except` clause converts into the
failure dict), then slurps and parses the sweep-info file; errors raised there
(`OSError`, `RuntimeError`, `ValueError`) are not subprocess errors and
propagate.  Returns the file system, the replica dict, and the log of shell
commands invoked. -/
def run_one_replica (gunzip : String → Except PyExc String) (o : ReplicaOutcome)
    (args : Args) (paramFile : String) (replicaNum : Nat) (fs : FileSys) :
    Except PyExc (FileSys × PyDict × List String) :=
  let randomSeed := drawSeed o.entropy
  let fs1 := dump_file fs (emptyFileName replicaNum) ""
  let fs2 := FileSys.setMany fs1 o.simFiles
  if o.cosiExit ≠ 0 then
    Except.ok (fs2, failureDict args replicaNum randomSeed,
      [cosi2_cmd args paramFile replicaNum randomSeed])
  else if o.tarExit ≠ 0 then
    Except.ok (fs2, failureDict args replicaNum randomSeed,
      [cosi2_cmd args paramFile replicaNum randomSeed, tarCmd args replicaNum])
  else
    match slurp_file gunzip fs2 (sweepInfoFile replicaNum) (some 50) with
    | Except.error e => Except.error e
    | Except.ok txt =>
      match parseSweep txt with
      | none => Except.error PyExc.valueError
      | some (_, selPop, selGen, selBegPop, selBegGen, selCoeff, selFreq) =>
        Except.ok (fs2,
          successDict args replicaNum randomSeed selPop selGen selBegPop selBegGen
            selCoeff selFreq,
          [cosi2_cmd args paramFile replicaNum randomSeed, tarCmd args replicaNum])

/-- The fixed name of the combined parameter file. -/
def paramFileCombined : String := "paramFileCombined.par"

/-- The parameter-combining step of `do_main`: slurp the common fragment, slurp
the variable fragment, and dump their concatenation; either read error
propagates and aborts the block. -/
def prepareParams (gunzip : String → Except PyExc String) (fs : FileSys) (args : Args) :
    Except PyExc FileSys :=
  match slurp_file gunzip fs args.paramFileCommon (some 50) with
  | Except.error e => Except.error e
  | Except.ok common =>
    match slurp_file gunzip fs args.paramFile (some 50) with
    | Except.error e => Except.error e
    | Except.ok varPart => Except.ok (dump_file fs paramFileCombined (common ++ varPart))

/-- Run the replicas for the given index list in order, threading the file
system, collecting the replica dicts in index order and the concatenated
command log; the first propagated exception aborts the whole run. -/
def runReplicas (gunzip : String → Except PyExc String) (oracle : Nat → ReplicaOutcome)
    (args : Args) (paramFile : String) :
    List Nat → FileSys → Except PyExc (FileSys × List PyDict × List String)
  | [], fs => Except.ok (fs, [], [])
  | i :: rest, fs =>
    match run_one_replica gunzip (oracle i) args paramFile i fs with
    | Except.error e => Except.error e
    | Except.ok (fs1, d, lg) =>
      match runReplicas gunzip oracle args paramFile rest fs1 with
      | Except.error e => Except.error e
      | Except.ok (fs2, ds, lgs) => Except.ok (fs2, d :: ds, lg ++ lgs)

/-- The observable outcome of a successful block run: the final file system,
the replica dicts of the manifest, and the shell commands invoked. -/
structure RunResult where
  fs : FileSys
  dicts : List PyDict
  log : List String

/-- Model of `do_main` after argument parsing: combine the parameter files,
run every replica in `range(numSimsInBlock)` against the combined file, and
write the pretty-printed manifest to `outJson`.  Any propagated exception
aborts the block with a non-zero process exit and no manifest. -/
def do_main (gunzip : String → Except PyExc String) (oracle : Nat → ReplicaOutcome)
    (args : Args) (fs : FileSys) : Except PyExc RunResult :=
  match prepareParams gunzip fs args with
  | Except.error e => Except.error e
  | Except.ok fs1 =>
    match runReplicas gunzip oracle args paramFileCombined
        (List.range args.numSimsInBlock) fs1 with
    | Except.error e => Except.error e
    | Except.ok (fs2, ds, log) =>
      Except.ok ⟨dump_file fs2 args.outJson (writeManifestDicts ds), ds, log⟩

/-- JSON whitespace. -/
def isWsB (c : Char) : Bool := c == ' ' || c == '\t' || c == '\n' || c == '\r'

/-- Skip JSON whitespace. -/
def skipWs (cs : List Char) : List Char := cs.dropWhile isWsB

/-- Hexadecimal digit value of a character. -/
def hexVal (c : Char) : Option Nat :=
  if '0' ≤ c ∧ c ≤ '9' then some (c.toNat - 48)
  else if 'a' ≤ c ∧ c ≤ 'f' then some (c.toNat - 87)
  else if 'A' ≤ c ∧ c ≤ 'F' then some (c.toNat - 55)
  else none

/-- Read exactly four hexadecimal digits. -/
def parseHex4 : List Char → Option (Nat × List Char)
  | a :: b :: c :: d :: rest =>
    match hexVal a, hexVal b, hexVal c, hexVal d with
    | some x, some y, some z, some w => some (((x * 16 + y) * 16 + z) * 16 + w, rest)
    | _, _, _, _ => none
  | _ => none

/-- Decode one backslash escape (the backslash is already consumed), combining
surrogate pairs the way the `json` decoder does. -/
def parseEscape : List Char → Option (Char × List Char)
  | [] => none
  | c :: rest =>
    if c = '"' then some ('"', rest)
    else if c = '\\' then some ('\\', rest)
    else if c = '/' then some ('/', rest)
    else if c = 'b' then some ('\x08', rest)
    else if c = 'f' then some ('\x0c', rest)
    else if c = 'n' then some ('\n', rest)
    else if c = 'r' then some ('\r', rest)
    else if c = 't' then some ('\t', rest)
    else if c = 'u' then
      match parseHex4 rest with
      | none => none
      | some (h, rest1) =>
        if 55296 ≤ h ∧ h ≤ 56319 then
          match rest1 with
          | '\\' :: 'u' :: rest2 =>
            match parseHex4 rest2 with
            | none => none
            | some (l, rest3) =>
              if 56320 ≤ l ∧ l ≤ 57343 then
                some (Char.ofNat (65536 + (h - 55296) * 1024 + (l - 56320)), rest3)
              else none
          | _ => none
        else if 56320 ≤ h ∧ h ≤ 57343 then none
        else some (Char.ofNat h, rest1)
    else none

/-- Read a JSON string body up to the closing quote (the opening quote is
already consumed); strict mode rejects raw control characters. -/
def parseStringBody : Nat → List Char → Option (List Char × List Char)
  | 0, _ => none
  | _ + 1, [] => none
  | f + 1, c :: rest =>
    if c = '"' then some ([], rest)
    else if c = '\\' then
      match parseEscape rest with
      | none => none
      | some (d, rest1) =>
        match parseStringBody f rest1 with
        | none => none
        | some (l, rest2) => some (d :: l, rest2)
    else if c.toNat < 32 then none
    else
      match parseStringBody f rest with
      | none => none
      | some (l, rest2) => some (c :: l, rest2)

/-- Take the longest leading run satisfying a predicate. -/
def mySpan (p : Char → Bool) : List Char → List Char × List Char
  | [] => ([], [])
  | c :: rest =>
    if p c then
      let (a, b) := mySpan p rest
      (c :: a, b)
    else ([], c :: rest)

/-- Read a JSON number: an integer becomes `jint`, a number with a fraction or
exponent part becomes a float (`jrat`). -/
def parseNumber (cs : List Char) : Option (JVal × List Char) :=
  let (neg, cs1) := match cs with
    | '-' :: r => (true, r)
    | _ => (false, cs)
  let (ip, cs2) := mySpan Char.isDigit cs1
  if ip.isEmpty then none
  else
    let ival : Nat := decDigitsVal ip
    let applySign : ℚ → ℚ := fun q => if neg then -q else q
    match cs2 with
    | '.' :: cs3 =>
      let (fp, cs4) := mySpan Char.isDigit cs3
      if fp.isEmpty then none
      else
        let base : ℚ := (ival : ℚ) + (decDigitsVal fp : ℚ) / 10 ^ fp.length
        match cs4 with
        | 'e' :: cs5 => parseExpTail (applySign base) cs5
        | 'E' :: cs5 => parseExpTail (applySign base) cs5
        | _ => some (JVal.jrat (applySign base), cs4)
    | 'e' :: cs3 => parseExpTail (applySign (ival : ℚ)) cs3
    | 'E' :: cs3 => parseExpTail (applySign (ival : ℚ)) cs3
    | _ => some (JVal.jint (if neg then -(ival : Int) else (ival : Int)), cs2)
where
  /-- Read the exponent digits after `e`/`E` and scale the value. -/
  parseExpTail (base : ℚ) (cs : List Char) : Option (JVal × List Char) :=
    let (eneg, cs1) := match cs with
      | '-' :: r => (true, r)
      | '+' :: r => (false, r)
      | _ => (false, cs)
    let (ds, cs2) := mySpan Char.isDigit cs1
    if ds.isEmpty then none
    else
      let e : Nat := decDigitsVal ds
      some (JVal.jrat (if eneg then base / 10 ^ e else base * 10 ^ e), cs2)

mutual

/-- Fuel-driven recursive-descent JSON value parser modelling `json.loads`;
`parseItems` and `parseEntries` read the element lists of arrays and objects
after the first element has been determined to exist. -/
def parseVal : Nat → List Char → Option (JVal × List Char)
  | 0, _ => none
  | f + 1, cs =>
    match skipWs cs with
    | [] => none
    | '"' :: rest =>
      match parseStringBody (rest.length + 1) rest with
      | none => none
      | some (l, rest1) => some (JVal.jstr (String.mk l), rest1)
    | '[' :: rest =>
      match skipWs rest with
      | ']' :: rest1 => some (JVal.jarr [], rest1)
      | rest1 =>
        match parseItems f rest1 with
        | none => none
        | some (vs, rest2) => some (JVal.jarr vs, rest2)
    | '\x7b' :: rest =>
      match skipWs rest with
      | '\x7d' :: rest1 => some (JVal.jobj [], rest1)
      | rest1 =>
        match parseEntries f rest1 with
        | none => none
        | some (es, rest2) => some (JVal.jobj es, rest2)
    | 't' :: 'r' :: 'u' :: 'e' :: rest => some (JVal.jbool true, rest)
    | 'f' :: 'a' :: 'l' :: 's' :: 'e' :: rest => some (JVal.jbool false, rest)
    | cs' => parseNumber cs'

/-- Read the comma-separated items of a non-empty array, up to and including
the closing bracket. -/
def parseItems : Nat → List Char → Option (List JVal × List Char)
  | 0, _ => none
  | f + 1, cs =>
    match parseVal f cs with
    | none => none
    | some (v, rest) =>
      match skipWs rest with
      | ',' :: rest1 =>
        match parseItems f rest1 with
        | none => none
        | some (vs, rest2) => some (v :: vs, rest2)
      | ']' :: rest1 => some ([v], rest1)
      | _ => none

/-- Read the comma-separated entries of a non-empty object, up to and
including the closing brace. -/
def parseEntries : Nat → List Char → Option (List (String × JVal) × List Char)
  | 0, _ => none
  | f + 1, cs =>
    match skipWs cs with
    | '"' :: rest =>
      match parseStringBody (rest.length + 1) rest with
      | none => none
      | some (k, rest1) =>
        match skipWs rest1 with
        | ':' :: rest2 =>
          match parseVal f rest2 with
          | none => none
          | some (v, rest3) =>
            match skipWs rest3 with
            | ',' :: rest4 =>
              match parseEntries f rest4 with
              | none => none
              | some (es, rest5) => some ((String.mk k, v) :: es, rest5)
            | '\x7d' :: rest4 => some ([(String.mk k, v)], rest4)
            | _ => none
        | _ => none
    | _ => none

end

/-- Model of `_json_loads`: strip the text, parse one JSON value with
insertion-ordered objects (`object_pairs_hook=OrderedDict`), and reject
trailing non-whitespace. -/
def readJson (s : String) : Option JVal :=
  let cs := (pyStrip s).toList
  match parseVal (cs.length + 1) cs with
  | none => none
  | some (v, rest) => if skipWs rest = [] then some v else none

/-- A rational that is exactly representable as a finite decimal (every Python
float value is, since its denominator is a power of two). -/
def IsDecimalRat (q : ℚ) : Prop := ∃ a b : Nat, q.den = 2 ^ a * 5 ^ b

/-- A JSON value this manifest writer handles losslessly: a scalar whose float
values are finite decimals. -/
def ScalarOK : JVal → Prop
  | JVal.jstr _ => True
  | JVal.jint _ => True
  | JVal.jrat q => IsDecimalRat q
  | JVal.jbool _ => True
  | JVal.jarr _ => False
  | JVal.jobj _ => False

/-- Well-formedness of a replica dict as a Python dict: distinct keys and
scalar, decimally-representable values. -/
def DictWF (d : PyDict) : Prop :=
  (d.map Prod.fst).Nodup ∧ ∀ kv ∈ d, ScalarOK kv.2

/-- Identity gunzip oracle for concrete runs whose inputs are uncompressed or
whose compressed bytes are taken at face value. -/
def gzId : String → Except PyExc String := fun s => Except.ok s

/-- A gunzip oracle that marks decompressed content, to make decompression
visible in concrete runs. -/
def gzU : String → Except PyExc String := fun s => Except.ok ("U" ++ s)

/-- Concrete block arguments for witnesses. -/
def argsW : Args := ⟨"common.par", "var.par.gz", "recomb.txt", "model1", "blk5", 3, 2, 100, "out.json"⟩

/-- Concrete starting file system for witnesses. -/
def fsW : FileSys := [("common.par", fileOf "AAA\n"), ("var.par.gz", ⟨6, "BBB\n"⟩)]

/-- Oracle where every replica's simulator invocation exits non-zero. -/
def orcFail : Nat → ReplicaOutcome := fun i => ⟨100 + i, 1, 0, []⟩

/-- Oracle where the simulator exits zero but leaves no sweep-info file. -/
def orcNoSweep : Nat → ReplicaOutcome := fun _ => ⟨7, 0, 0, []⟩

/-- A replica outcome whose `tar` packaging step exits non-zero. -/
def oTar : ReplicaOutcome := ⟨7, 0, 2, []⟩

/-- A replica outcome with a clean simulator run and the sweep-info file of
the worked example. -/
def oSw : ReplicaOutcome := ⟨12345, 0, 0, [("sweepinfo.0.tsv", fileOf "1 3 0.1 2 0.0 0.02 0.33\n")]⟩

/-- The raw rational values `parseSweep` produces for the worked example
`"1 3 0.1 2 0.0 0.02 0.33"` (each is definitionally what `parsePyFloat`
builds for its token). -/
def swQ0 : ℚ := (1 : ℚ) * ((1 : ℕ) : ℚ)

/-- Second sweep value (`selPop` column) of the worked example. -/
def swQ1 : ℚ := (1 : ℚ) * ((3 : ℕ) : ℚ)

/-- Third sweep value (`selGen` column) of the worked example. -/
def swQ2 : ℚ := (1 : ℚ) * (((0 : ℕ) : ℚ) + ((1 : ℕ) : ℚ) / 10 ^ (1 : ℕ))

/-- Fourth sweep value (`selBegPop` column) of the worked example. -/
def swQ3 : ℚ := (1 : ℚ) * ((2 : ℕ) : ℚ)

/-- Fifth sweep value (`selBegGen` column) of the worked example. -/
def swQ4 : ℚ := (1 : ℚ) * (((0 : ℕ) : ℚ) + ((0 : ℕ) : ℚ) / 10 ^ (1 : ℕ))

/-- Sixth sweep value (`selCoeff` column) of the worked example. -/
def swQ5 : ℚ := (1 : ℚ) * (((0 : ℕ) : ℚ) + ((2 : ℕ) : ℚ) / 10 ^ (2 : ℕ))

/-- Seventh sweep value (`selFreq` column) of the worked example. -/
def swQ6 : ℚ := (1 : ℚ) * (((0 : ℕ) : ℚ) + ((33 : ℕ) : ℚ) / 10 ^ (2 : ℕ))

/-- The file system after a run of replicas that all fail at the simulator
invocation: each replica dumps its placeholder and the simulator drops its
files. -/
def allFailFS (oracle : Nat → ReplicaOutcome) (idxs : List Nat) (fs : FileSys) : FileSys :=
  idxs.foldl (fun a i => FileSys.setMany (dump_file a (emptyFileName i) "") (oracle i).simFiles) fs

/-- The command log of a run of replicas that all fail at the simulator
invocation: one simulator command per replica, no `tar`. -/
def allFailLog (oracle : Nat → ReplicaOutcome) (args : Args) (paramFile : String)
    (idxs : List Nat) : List String :=
  idxs.map (fun i => cosi2_cmd args paramFile i (drawSeed (oracle i).entropy))

/-- The replica dicts of a run whose replicas all fail at the simulator
invocation. -/
def allFailDicts (oracle : Nat → ReplicaOutcome) (args : Args) (idxs : List Nat) : List PyDict :=
  idxs.map (fun i => failureDict args i (drawSeed (oracle i).entropy))

/-- A character list that cannot continue a JSON number (empty, or headed by
a character that is neither a digit nor `.`/`e`/`E`). -/
def numBoundary (cs : List Char) : Prop :=
  ∀ c, cs.head? = some c → c.isDigit = false ∧ c ≠ '.' ∧ c ≠ 'e' ∧ c ≠ 'E'

/-- A list of JSON whitespace characters. -/
def allWs (cs : List Char) : Prop := ∀ c ∈ cs, isWsB c = true

/-- Parser fuel sufficient for the array items of a manifest. -/
def jsonFuel (ds : List PyDict) : Nat := ds.foldr (fun d a => a + d.length + 3) 1

/-! Theorems.  General facts about the file-system model first. -/

theorem get_set_self (fs : FileSys) (n : String) (fd : FileData) :
    FileSys.get (FileSys.set fs n fd) n = some fd := by
  simp [FileSys.get, FileSys.set]

theorem get_set_ne (fs : FileSys) (n m : String) (fd : FileData) (h : n ≠ m) :
    FileSys.get (FileSys.set fs n fd) m = FileSys.get fs m := by
  simp [FileSys.get, FileSys.set, List.find?_cons, h]

theorem setMany_cons (fs : FileSys) (a : String × FileData) (t : List (String × FileData)) :
    FileSys.setMany fs (a :: t) = FileSys.setMany (FileSys.set fs a.1 a.2) t := rfl

theorem get_setMany_notin (ws : List (String × FileData)) (fs : FileSys) (name : String)
    (h : ∀ p ∈ ws, p.1 ≠ name) :
    FileSys.get (FileSys.setMany fs ws) name = FileSys.get fs name := by
  induction ws generalizing fs with
  | nil => rfl
  | cons a t ih =>
    rw [setMany_cons, ih _ (fun p hp => h p (List.mem_cons_of_mem a hp)),
      get_set_ne _ _ _ _ (h a (List.mem_cons_self a t))]

/-- C8: `slurp_file` rejects any file strictly larger than
`maxSizeMb*1024*1024` bytes (50 MB under the default), performs no size check
at all when `maxSizeMb` is `None` or `0`, and under the limit returns the
file's entire content, transparently decompressed exactly when the name ends
in `.gz`. -/
theorem C8_slurp_size_gate (gunzip : String → Except PyExc String) (fs : FileSys)
    (fname : String) (fd : FileData) (h : FileSys.get fs fname = some fd) :
    (∀ m : Nat, m ≠ 0 → fd.size > m * 1024 * 1024 →
      slurp_file gunzip fs fname (some m) = Except.error PyExc.runtimeError) ∧
    (fd.size > 50 * 1024 * 1024 →
      slurp_file gunzip fs fname (some 50) = Except.error PyExc.runtimeError) ∧
    (slurp_file gunzip fs fname none = open_or_gzopen_read gunzip fname fd) ∧
    (slurp_file gunzip fs fname (some 0) = open_or_gzopen_read gunzip fname fd) ∧
    (∀ m : Nat, fd.size ≤ m * 1024 * 1024 →
      slurp_file gunzip fs fname (some m) = open_or_gzopen_read gunzip fname fd) ∧
    (strEndsWith fname ".gz" = true → open_or_gzopen_read gunzip fname fd = gunzip fd.raw) ∧
    (strEndsWith fname ".gz" = false → open_or_gzopen_read gunzip fname fd = Except.ok fd.raw) := by
  refine ⟨?_, ?_, ?_, ?_, ?_, ?_, ?_⟩
  · intro m hm hsz
    simp [slurp_file, h, hm, hsz]
  · intro hsz
    simp [slurp_file, h, hsz]
  · simp [slurp_file, h]
  · simp [slurp_file, h]
  · intro m hsz
    simp [slurp_file, h, Nat.not_lt_of_le hsz]
  · intro hgz
    simp [open_or_gzopen_read, hgz]
  · intro hgz
    simp [open_or_gzopen_read, hgz]

/-- Witness for C8 at a concrete 60-megabyte `.gz` file and a small `.gz`
file: the former is rejected under the default and the zero/none settings
disable the check; the small file comes back decompressed. -/
theorem C8_witness :
    FileSys.get [("p.gz", (⟨62914561, "Z"⟩ : FileData))] "p.gz" = some ⟨62914561, "Z"⟩ ∧
    slurp_file gzU [("p.gz", (⟨62914561, "Z"⟩ : FileData))] "p.gz" (some 50) =
      Except.error PyExc.runtimeError ∧
    slurp_file gzU [("p.gz", (⟨62914561, "Z"⟩ : FileData))] "p.gz" none = Except.ok "UZ" ∧
    slurp_file gzU [("p.gz", (⟨62914561, "Z"⟩ : FileData))] "p.gz" (some 0) = Except.ok "UZ" ∧
    slurp_file gzU [("q.txt", (⟨1, "W"⟩ : FileData))] "q.txt" (some 50) = Except.ok "W" := by
  have h1 := C8_slurp_size_gate gzU [("p.gz", (⟨62914561, "Z"⟩ : FileData))] "p.gz"
    ⟨62914561, "Z"⟩ rfl
  have h2 := C8_slurp_size_gate gzU [("q.txt", (⟨1, "W"⟩ : FileData))] "q.txt" ⟨1, "W"⟩ rfl
  refine ⟨rfl, h1.2.1 (by decide), ?_, ?_, ?_⟩
  · rw [h1.2.2.1, h1.2.2.2.2.2.1 rfl]; rfl
  · rw [h1.2.2.2.1, h1.2.2.2.2.2.1 rfl]; rfl
  · rw [h2.2.2.2.2.1 50 (by decide), h2.2.2.2.2.2.2 rfl]

/-- C10: every replica dict `run_one_replica` returns, successful or failed,
has exactly the same 13 keys in the same literal order, with `modelId` and
`blockNum` copied unchanged from the block arguments. -/
theorem C10_uniform_schema (gunzip : String → Except PyExc String) (o : ReplicaOutcome)
    (args : Args) (paramFile : String) (replicaNum : Nat) (fs fs' : FileSys) (d : PyDict)
    (log : List String)
    (h : run_one_replica gunzip o args paramFile replicaNum fs = Except.ok (fs', d, log)) :
    d.map Prod.fst = ["modelId", "blockNum", "replicaNum", "succeeded", "randomSeed",
      "tpeds", "traj", "selPop", "selGen", "selBegPop", "selBegGen", "selCoeff", "selFreq"] ∧
    pyLookup "modelId" d = some (JVal.jstr args.modelId) ∧
    pyLookup "blockNum" d = some (JVal.jint args.blockNum) := by
  by_cases hc : o.cosiExit ≠ 0
  · simp only [run_one_replica, if_pos hc, Except.ok.injEq, Prod.mk.injEq] at h
    rw [← h.2.1]
    exact ⟨rfl, rfl, rfl⟩
  · by_cases ht : o.tarExit ≠ 0
    · simp only [run_one_replica, if_neg hc, if_pos ht, Except.ok.injEq, Prod.mk.injEq] at h
      rw [← h.2.1]
      exact ⟨rfl, rfl, rfl⟩
    · simp only [run_one_replica, if_neg hc, if_neg ht] at h
      split at h
      · exact Except.noConfusion h
      · split at h
        · exact Except.noConfusion h
        · simp only [Except.ok.injEq, Prod.mk.injEq] at h
          rw [← h.2.1]
          exact ⟨rfl, rfl, rfl⟩

/-- Witness for C10 at one failed and one successful concrete replica. -/
theorem C10_witness :
    run_one_replica gzId oTar argsW "p" 0 [] =
      Except.ok (FileSys.setMany (dump_file [] (emptyFileName 0) "") [],
        failureDict argsW 0 (drawSeed 7),
        [cosi2_cmd argsW "p" 0 (drawSeed 7), tarCmd argsW 0]) ∧
    (failureDict argsW 0 (drawSeed 7)).map Prod.fst =
      ["modelId", "blockNum", "replicaNum", "succeeded", "randomSeed",
       "tpeds", "traj", "selPop", "selGen", "selBegPop", "selBegGen", "selCoeff", "selFreq"] ∧
    pyLookup "modelId" (failureDict argsW 0 (drawSeed 7)) = some (JVal.jstr "model1") ∧
    pyLookup "blockNum" (failureDict argsW 0 (drawSeed 7)) = some (JVal.jint 3) :=
  ⟨rfl, (C10_uniform_schema gzId oTar argsW "p" 0 [] _ _ _ rfl).1,
    (C10_uniform_schema gzId oTar argsW "p" 0 [] _ _ _ rfl).2.1,
    (C10_uniform_schema gzId oTar argsW "p" 0 [] _ _ _ rfl).2.2⟩

/-- C7: for every replica that returns a record (success or failure), the
recorded `randomSeed` is the one drawn value: it lies in `[0, 2147483646]`,
it is interpolated into the simulator command line (`-r` flag), and the very
same value is stored in the dict.  The draw comes from the OS entropy oracle
(`random.SystemRandom`), over which the statement quantifies. -/
theorem C7_random_seed (gunzip : String → Except PyExc String) (o : ReplicaOutcome)
    (args : Args) (paramFile : String) (replicaNum : Nat) (fs fs' : FileSys) (d : PyDict)
    (log : List String)
    (h : run_one_replica gunzip o args paramFile replicaNum fs = Except.ok (fs', d, log)) :
    pyLookup "randomSeed" d = some (JVal.jint (drawSeed o.entropy)) ∧
    0 ≤ drawSeed o.entropy ∧ drawSeed o.entropy ≤ 2147483646 ∧
    log.head? = some (cosi2_cmd args paramFile replicaNum (drawSeed o.entropy)) ∧
    cosi2_cmd args paramFile replicaNum (drawSeed o.entropy) =
      ("(env COSI_NEWSIM=1 COSI_MAXATTEMPTS=" ++ toString args.maxAttempts ++
        " COSI_SAVE_TRAJ=" ++ trajFile args replicaNum ++
        " COSI_SAVE_SWEEP_INFO=" ++ sweepInfoFile replicaNum ++
        " coalescent -R " ++ args.recombFile ++ " -p " ++ paramFile ++
        " -v -g -r ") ++ toString (drawSeed o.entropy) ++
        (" --genmapRandomRegions --drop-singletons .25 --tped " ++
          tpedPfx args replicaNum ++ " )") := by
  have hrange : 0 ≤ drawSeed o.entropy ∧ drawSeed o.entropy ≤ 2147483646 := by
    unfold drawSeed
    constructor
    · exact Int.ofNat_nonneg _
    · have h2 : o.entropy % 2147483647 ≤ 2147483646 := by
        have := Nat.mod_lt o.entropy (show 0 < 2147483647 by decide)
        omega
      exact Int.ofNat_le.mpr h2
  have hcmd : cosi2_cmd args paramFile replicaNum (drawSeed o.entropy) =
      ("(env COSI_NEWSIM=1 COSI_MAXATTEMPTS=" ++ toString args.maxAttempts ++
        " COSI_SAVE_TRAJ=" ++ trajFile args replicaNum ++
        " COSI_SAVE_SWEEP_INFO=" ++ sweepInfoFile replicaNum ++
        " coalescent -R " ++ args.recombFile ++ " -p " ++ paramFile ++
        " -v -g -r ") ++ toString (drawSeed o.entropy) ++
        (" --genmapRandomRegions --drop-singletons .25 --tped " ++
          tpedPfx args replicaNum ++ " )") := by
    simp only [cosi2_cmd, String.append_assoc]
  by_cases hc : o.cosiExit ≠ 0
  · simp only [run_one_replica, if_pos hc, Except.ok.injEq, Prod.mk.injEq] at h
    rw [← h.2.1, ← h.2.2]
    exact ⟨rfl, hrange.1, hrange.2, rfl, hcmd⟩
  · by_cases ht : o.tarExit ≠ 0
    · simp only [run_one_replica, if_neg hc, if_pos ht, Except.ok.injEq, Prod.mk.injEq] at h
      rw [← h.2.1, ← h.2.2]
      exact ⟨rfl, hrange.1, hrange.2, rfl, hcmd⟩
    · simp only [run_one_replica, if_neg hc, if_neg ht] at h
      split at h
      · exact Except.noConfusion h
      · split at h
        · exact Except.noConfusion h
        · simp only [Except.ok.injEq, Prod.mk.injEq] at h
          rw [← h.2.1, ← h.2.2]
          exact ⟨rfl, hrange.1, hrange.2, rfl, hcmd⟩

/-- Witness for C7 at a concrete failed replica: the drawn seed 7 is recorded
and passed in the command line. -/
theorem C7_witness :
    run_one_replica gzId oTar argsW "p" 0 [] =
      Except.ok (FileSys.setMany (dump_file [] (emptyFileName 0) "") [],
        failureDict argsW 0 (drawSeed 7),
        [cosi2_cmd argsW "p" 0 (drawSeed 7), tarCmd argsW 0]) ∧
    pyLookup "randomSeed" (failureDict argsW 0 (drawSeed 7)) = some (JVal.jint 7) ∧
    0 ≤ drawSeed 7 ∧ drawSeed 7 ≤ 2147483646 ∧
    [cosi2_cmd argsW "p" 0 (drawSeed 7), tarCmd argsW 0].head? =
      some (cosi2_cmd argsW "p" 0 (drawSeed 7)) := by
  have hw := C7_random_seed gzId oTar argsW "p" 0 []
    (FileSys.setMany (dump_file [] (emptyFileName 0) "") [])
    (failureDict argsW 0 (drawSeed 7))
    [cosi2_cmd argsW "p" 0 (drawSeed 7), tarCmd argsW 0] rfl
  exact ⟨rfl, hw.1, hw.2.1, hw.2.2.1, hw.2.2.2.1⟩

/-- C3: a replica record with `succeeded=false` is exactly the failure dict:
it records the drawn seed, zeroes every selection field (`selPop`, `selBegPop`
as ints, the other four as floats), and points both `tpeds` and `traj` at the
replica's empty placeholder file, which was created (before the simulator
invocation) and still exists empty afterwards provided the simulator did not
itself write over that name. -/
theorem C3_failure_record (gunzip : String → Except PyExc String) (o : ReplicaOutcome)
    (args : Args) (paramFile : String) (replicaNum : Nat) (fs fs' : FileSys) (d : PyDict)
    (log : List String)
    (h : run_one_replica gunzip o args paramFile replicaNum fs = Except.ok (fs', d, log))
    (hf : pyLookup "succeeded" d = some (JVal.jbool false)) :
    d = failureDict args replicaNum (drawSeed o.entropy) ∧
    pyLookup "randomSeed" d = some (JVal.jint (drawSeed o.entropy)) ∧
    pyLookup "tpeds" d = some (JVal.jstr (emptyFileName replicaNum)) ∧
    pyLookup "traj" d = some (JVal.jstr (emptyFileName replicaNum)) ∧
    pyLookup "selPop" d = some (JVal.jint 0) ∧
    pyLookup "selBegPop" d = some (JVal.jint 0) ∧
    pyLookup "selGen" d = some (JVal.jrat 0) ∧
    pyLookup "selBegGen" d = some (JVal.jrat 0) ∧
    pyLookup "selCoeff" d = some (JVal.jrat 0) ∧
    pyLookup "selFreq" d = some (JVal.jrat 0) ∧
    ((∀ p ∈ o.simFiles, p.1 ≠ emptyFileName replicaNum) →
      FileSys.get fs' (emptyFileName replicaNum) = some (fileOf "")) := by
  have hfs : fs' = FileSys.setMany (dump_file fs (emptyFileName replicaNum) "") o.simFiles →
      (∀ p ∈ o.simFiles, p.1 ≠ emptyFileName replicaNum) →
      FileSys.get fs' (emptyFileName replicaNum) = some (fileOf "") := by
    intro he hp
    rw [he, get_setMany_notin _ _ _ hp]
    exact get_set_self _ _ _
  by_cases hc : o.cosiExit ≠ 0
  · simp only [run_one_replica, if_pos hc, Except.ok.injEq, Prod.mk.injEq] at h
    rw [← h.2.1]
    exact ⟨rfl, rfl, rfl, rfl, rfl, rfl, rfl, rfl, rfl, rfl, hfs h.1.symm⟩
  · by_cases ht : o.tarExit ≠ 0
    · simp only [run_one_replica, if_neg hc, if_pos ht, Except.ok.injEq, Prod.mk.injEq] at h
      rw [← h.2.1]
      exact ⟨rfl, rfl, rfl, rfl, rfl, rfl, rfl, rfl, rfl, rfl, hfs h.1.symm⟩
    · simp only [run_one_replica, if_neg hc, if_neg ht] at h
      split at h
      · exact Except.noConfusion h
      · split at h
        · exact Except.noConfusion h
        · simp only [Except.ok.injEq, Prod.mk.injEq] at h
          rw [← h.2.1] at hf
          exact absurd hf (by simp [pyLookup, successDict])

/-- Witness for C3 at a concrete simulator failure (non-zero exit): the
returned dict is the failure record and the placeholder file is present and
empty. -/
theorem C3_witness :
    run_one_replica gzId ⟨41, 3, 0, []⟩ argsW "p" 1 [] =
      Except.ok (FileSys.setMany (dump_file [] (emptyFileName 1) "") [],
        failureDict argsW 1 (drawSeed 41),
        [cosi2_cmd argsW "p" 1 (drawSeed 41)]) ∧
    pyLookup "succeeded" (failureDict argsW 1 (drawSeed 41)) = some (JVal.jbool false) ∧
    failureDict argsW 1 (drawSeed 41) = failureDict argsW 1 (drawSeed 41) ∧
    pyLookup "tpeds" (failureDict argsW 1 (drawSeed 41)) = some (JVal.jstr "empty.rep1") ∧
    pyLookup "traj" (failureDict argsW 1 (drawSeed 41)) = some (JVal.jstr "empty.rep1") ∧
    pyLookup "selPop" (failureDict argsW 1 (drawSeed 41)) = some (JVal.jint 0) ∧
    pyLookup "selGen" (failureDict argsW 1 (drawSeed 41)) = some (JVal.jrat 0) ∧
    FileSys.get (FileSys.setMany (dump_file [] (emptyFileName 1) "") []) (emptyFileName 1) =
      some (fileOf "") := by
  have hw := C3_failure_record gzId ⟨41, 3, 0, []⟩ argsW "p" 1 []
    (FileSys.setMany (dump_file [] (emptyFileName 1) "") [])
    (failureDict argsW 1 (drawSeed 41)) [cosi2_cmd argsW "p" 1 (drawSeed 41)] rfl rfl
  exact ⟨rfl, rfl, hw.1 ▸ rfl, hw.2.2.1, hw.2.2.2.1, hw.2.2.2.2.1, hw.2.2.2.2.2.2.1,
    hw.2.2.2.2.2.2.2.2.2.2 (by intro p hp; cases hp)⟩

theorem mapM_option_length {α β : Type} (f : α → Option β) (l : List α) (l' : List β)
    (h : l.mapM f = some l') : l'.length = l.length := by
  rw [← List.mapM'_eq_mapM] at h
  induction l generalizing l' with
  | nil =>
    simp only [List.mapM'] at h
    cases h
    rfl
  | cons a t ih =>
    simp only [List.mapM', Option.bind_eq_bind, Option.bind_eq_some] at h
    obtain ⟨b, _, l'', hl'', he⟩ := h
    rw [show (pure (b :: l'') : Option (List β)) = some (b :: l'') from rfl] at he
    cases he
    simp [ih _ hl'']

theorem parseSweep_len_ne_seven (t : String)
    (h : (pySplit (pyStrip t)).length ≠ 7) : parseSweep t = none := by
  unfold parseSweep
  rcases hm : (pySplit (pyStrip t)).mapM parsePyFloat with _ | l
  · rfl
  · have hl : l.length = (pySplit (pyStrip t)).length := mapM_option_length _ _ _ hm
    rcases l with _ | ⟨a, _ | ⟨b, _ | ⟨c, _ | ⟨d, _ | ⟨e, _ | ⟨f, _ | ⟨g, _ | ⟨x, r⟩⟩⟩⟩⟩⟩⟩⟩ <;>
      simp_all

/-- C4: on a clean simulator run (zero exit) followed by successful packaging,
the sweep-info text is stripped, split on whitespace, parsed as floats and
unpacked into exactly seven fields in the fixed order (simulation number
discarded, then `selPop`, `selGen`, `selBegPop`, `selBegGen`, `selCoeff`,
`selFreq`); the resulting record has `succeeded=true`, the drawn seed, the
archive and trajectory paths, the two population fields coerced by `int()`
and the other four kept as floats.  A field count other than 7 is a parse
failure. -/
theorem C4_success_record (gunzip : String → Except PyExc String) (o : ReplicaOutcome)
    (args : Args) (paramFile : String) (replicaNum : Nat) (fs : FileSys) (txt : String)
    (q0 q1 q2 q3 q4 q5 q6 : ℚ)
    (h0 : o.cosiExit = 0) (h1 : o.tarExit = 0)
    (hs : slurp_file gunzip (FileSys.setMany (dump_file fs (emptyFileName replicaNum) "") o.simFiles)
      (sweepInfoFile replicaNum) (some 50) = Except.ok txt)
    (hp : parseSweep txt = some (q0, q1, q2, q3, q4, q5, q6)) :
    run_one_replica gunzip o args paramFile replicaNum fs =
      Except.ok (FileSys.setMany (dump_file fs (emptyFileName replicaNum) "") o.simFiles,
        successDict args replicaNum (drawSeed o.entropy) q1 q2 q3 q4 q5 q6,
        [cosi2_cmd args paramFile replicaNum (drawSeed o.entropy), tarCmd args replicaNum]) ∧
    (∀ t : String, (pySplit (pyStrip t)).length ≠ 7 → parseSweep t = none) ∧
    pyLookup "succeeded" (successDict args replicaNum (drawSeed o.entropy) q1 q2 q3 q4 q5 q6) =
      some (JVal.jbool true) ∧
    pyLookup "randomSeed" (successDict args replicaNum (drawSeed o.entropy) q1 q2 q3 q4 q5 q6) =
      some (JVal.jint (drawSeed o.entropy)) ∧
    pyLookup "tpeds" (successDict args replicaNum (drawSeed o.entropy) q1 q2 q3 q4 q5 q6) =
      some (JVal.jstr (tpedsTarGz args replicaNum)) ∧
    pyLookup "traj" (successDict args replicaNum (drawSeed o.entropy) q1 q2 q3 q4 q5 q6) =
      some (JVal.jstr (trajFile args replicaNum)) ∧
    pyLookup "selPop" (successDict args replicaNum (drawSeed o.entropy) q1 q2 q3 q4 q5 q6) =
      some (JVal.jint (pyInt q1)) ∧
    pyLookup "selGen" (successDict args replicaNum (drawSeed o.entropy) q1 q2 q3 q4 q5 q6) =
      some (JVal.jrat q2) ∧
    pyLookup "selBegPop" (successDict args replicaNum (drawSeed o.entropy) q1 q2 q3 q4 q5 q6) =
      some (JVal.jint (pyInt q3)) ∧
    pyLookup "selBegGen" (successDict args replicaNum (drawSeed o.entropy) q1 q2 q3 q4 q5 q6) =
      some (JVal.jrat q4) ∧
    pyLookup "selCoeff" (successDict args replicaNum (drawSeed o.entropy) q1 q2 q3 q4 q5 q6) =
      some (JVal.jrat q5) ∧
    pyLookup "selFreq" (successDict args replicaNum (drawSeed o.entropy) q1 q2 q3 q4 q5 q6) =
      some (JVal.jrat q6) := by
  refine ⟨?_, parseSweep_len_ne_seven, rfl, rfl, rfl, rfl, rfl, rfl, rfl, rfl, rfl, rfl⟩
  simp only [run_one_replica, h0, h1, ne_eq, not_true_eq_false, if_false, hs, hp]

/-- Witness for C4 at the worked example: sweep-info text
`"1 3 0.1 2 0.0 0.02 0.33"` yields `selPop=3`, `selBegPop=2`, `selGen=0.1`,
`selCoeff=0.02`, `selFreq=0.33`. -/
theorem C4_witness :
    oSw.cosiExit = 0 ∧ oSw.tarExit = 0 ∧
    slurp_file gzId (FileSys.setMany (dump_file [] (emptyFileName 0) "") oSw.simFiles)
      (sweepInfoFile 0) (some 50) = Except.ok "1 3 0.1 2 0.0 0.02 0.33\n" ∧
    parseSweep "1 3 0.1 2 0.0 0.02 0.33\n" = some (swQ0, swQ1, swQ2, swQ3, swQ4, swQ5, swQ6) ∧
    run_one_replica gzId oSw argsW "p" 0 [] =
      Except.ok (FileSys.setMany (dump_file [] (emptyFileName 0) "") oSw.simFiles,
        successDict argsW 0 (drawSeed 12345) swQ1 swQ2 swQ3 swQ4 swQ5 swQ6,
        [cosi2_cmd argsW "p" 0 (drawSeed 12345), tarCmd argsW 0]) ∧
    pyInt swQ1 = 3 ∧ swQ2 = 1 / 10 ∧ pyInt swQ3 = 2 ∧ swQ4 = 0 ∧ swQ5 = 1 / 50 ∧
    swQ6 = 33 / 100 := by
  have hq1 : pyInt swQ1 = 3 := by
    rw [show swQ1 = (3 : ℚ) by norm_num [swQ1]]
    decide
  have hq3 : pyInt swQ3 = 2 := by
    rw [show swQ3 = (2 : ℚ) by norm_num [swQ3]]
    decide
  have hmain := C4_success_record gzId oSw argsW "p" 0 [] "1 3 0.1 2 0.0 0.02 0.33\n"
    swQ0 swQ1 swQ2 swQ3 swQ4 swQ5 swQ6 rfl rfl rfl rfl
  refine ⟨rfl, rfl, rfl, rfl, hmain.1, hq1, ?_, hq3, ?_, ?_, ?_⟩
  · norm_num [swQ2]
  · norm_num [swQ4]
  · norm_num [swQ5]
  · norm_num [swQ6]

/-- C6 counterexample: with a zero-exit simulator run, a failure of the
archive-packaging `tar` command (non-zero exit status, the error such a
failure raises) does NOT propagate: it is caught by the
`except subprocess.SubprocessError` clause and folded into a
`succeeded=false` record.  This refutes the claim that any error raised while
packaging the tped archive propagates uncaught. -/
theorem C6_counterexample :
    oTar.cosiExit = 0 ∧ oTar.tarExit = 2 ∧
    run_one_replica gzId oTar argsW "p" 0 [] =
      Except.ok (FileSys.setMany (dump_file [] (emptyFileName 0) "") [],
        failureDict argsW 0 (drawSeed 7),
        [cosi2_cmd argsW "p" 0 (drawSeed 7), tarCmd argsW 0]) :=
  ⟨rfl, rfl, rfl⟩

/-- C6 (amended): after a zero-exit simulator invocation with successful
packaging, an error raised while reading or parsing the sweep-info file
(`OSError`/`RuntimeError` from the slurp, `ValueError` from the float
parse/unpack) propagates out of `run_one_replica` uncaught; a packaging
failure signalled by a non-zero `tar` exit status instead raises a subprocess
error that the handler catches into the `succeeded=false` branch. -/
theorem C6_parse_error_propagates :
    (∀ (gunzip : String → Except PyExc String) (o : ReplicaOutcome) (args : Args)
      (paramFile : String) (replicaNum : Nat) (fs : FileSys) (e : PyExc),
      o.cosiExit = 0 → o.tarExit = 0 →
      slurp_file gunzip (FileSys.setMany (dump_file fs (emptyFileName replicaNum) "") o.simFiles)
        (sweepInfoFile replicaNum) (some 50) = Except.error e →
      run_one_replica gunzip o args paramFile replicaNum fs = Except.error e) ∧
    (∀ (gunzip : String → Except PyExc String) (o : ReplicaOutcome) (args : Args)
      (paramFile : String) (replicaNum : Nat) (fs : FileSys) (txt : String),
      o.cosiExit = 0 → o.tarExit = 0 →
      slurp_file gunzip (FileSys.setMany (dump_file fs (emptyFileName replicaNum) "") o.simFiles)
        (sweepInfoFile replicaNum) (some 50) = Except.ok txt →
      parseSweep txt = none →
      run_one_replica gunzip o args paramFile replicaNum fs = Except.error PyExc.valueError) ∧
    (∀ (gunzip : String → Except PyExc String) (o : ReplicaOutcome) (args : Args)
      (paramFile : String) (replicaNum : Nat) (fs : FileSys),
      o.cosiExit = 0 → o.tarExit ≠ 0 →
      run_one_replica gunzip o args paramFile replicaNum fs =
        Except.ok (FileSys.setMany (dump_file fs (emptyFileName replicaNum) "") o.simFiles,
          failureDict args replicaNum (drawSeed o.entropy),
          [cosi2_cmd args paramFile replicaNum (drawSeed o.entropy), tarCmd args replicaNum])) := by
  refine ⟨?_, ?_, ?_⟩
  · intro gunzip o args paramFile replicaNum fs e h0 h1 hs
    simp only [run_one_replica, h0, h1, ne_eq, not_true_eq_false, if_false, hs]
  · intro gunzip o args paramFile replicaNum fs txt h0 h1 hs hp
    simp only [run_one_replica, h0, h1, ne_eq, not_true_eq_false, if_false, hs, hp]
  · intro gunzip o args paramFile replicaNum fs h0 h1
    simp only [run_one_replica, h0, h1, ne_eq, not_true_eq_false, if_false, if_true,
      not_false_eq_true]

/-- Witness for C6: a missing sweep-info file propagates `OSError`, a
malformed one propagates `ValueError`, and a failed `tar` is caught. -/
theorem C6_witness :
    run_one_replica gzId ⟨7, 0, 0, []⟩ argsW "p" 0 [] = Except.error PyExc.osError ∧
    run_one_replica gzId ⟨7, 0, 0, [("sweepinfo.0.tsv", fileOf "1 2 3")]⟩ argsW "p" 0 [] =
      Except.error PyExc.valueError ∧
    run_one_replica gzId oTar argsW "p" 0 [] =
      Except.ok (FileSys.setMany (dump_file [] (emptyFileName 0) "") [],
        failureDict argsW 0 (drawSeed 7),
        [cosi2_cmd argsW "p" 0 (drawSeed 7), tarCmd argsW 0]) := by
  refine ⟨?_, ?_, ?_⟩
  · exact C6_parse_error_propagates.1 gzId ⟨7, 0, 0, []⟩ argsW "p" 0 [] PyExc.osError
      rfl rfl rfl
  · exact C6_parse_error_propagates.2.1 gzId ⟨7, 0, 0, [("sweepinfo.0.tsv", fileOf "1 2 3")]⟩
      argsW "p" 0 [] "1 2 3" rfl rfl rfl rfl
  · exact C6_parse_error_propagates.2.2 gzId oTar argsW "p" 0 [] rfl (by decide)

theorem run_one_replica_cosi_fail (gunzip : String → Except PyExc String) (o : ReplicaOutcome)
    (args : Args) (paramFile : String) (replicaNum : Nat) (fs : FileSys)
    (h : o.cosiExit ≠ 0) :
    run_one_replica gunzip o args paramFile replicaNum fs =
      Except.ok (FileSys.setMany (dump_file fs (emptyFileName replicaNum) "") o.simFiles,
        failureDict args replicaNum (drawSeed o.entropy),
        [cosi2_cmd args paramFile replicaNum (drawSeed o.entropy)]) := by
  simp only [run_one_replica, h, ne_eq, not_false_eq_true, if_true]

theorem runReplicas_all_fail (gunzip : String → Except PyExc String)
    (oracle : Nat → ReplicaOutcome) (args : Args) (paramFile : String) :
    ∀ (idxs : List Nat) (fs : FileSys), (∀ i ∈ idxs, (oracle i).cosiExit ≠ 0) →
    runReplicas gunzip oracle args paramFile idxs fs =
      Except.ok (allFailFS oracle idxs fs, allFailDicts oracle args idxs,
        allFailLog oracle args paramFile idxs) := by
  intro idxs
  induction idxs with
  | nil => intro fs _; rfl
  | cons i t ih =>
    intro fs h
    rw [runReplicas, run_one_replica_cosi_fail gunzip _ args paramFile i fs
      (h i (List.mem_cons_self i t))]
    dsimp only
    rw [ih _ (fun j hj => h j (List.mem_cons_of_mem i hj))]
    rfl

/-- C2 counterexample: the block can abort with a non-zero exit on an error
that is not a Tier-1 error (not reading the input parameter files, not
creating the combined file, not writing the manifest): here the parameter
combiner succeeds, but replica 0's simulator exits zero without leaving a
sweep-info file, and the resulting `OSError` aborts the whole block.  This
refutes the clause that ONLY Tier-1 errors abort the block. -/
theorem C2_counterexample :
    prepareParams gzU fsW argsW =
      Except.ok (dump_file fsW paramFileCombined ("AAA\n" ++ "UBBB\n")) ∧
    (orcNoSweep 0).cosiExit = 0 ∧
    do_main gzU orcNoSweep argsW fsW = Except.error PyExc.osError :=
  ⟨rfl, rfl, rfl⟩

/-- C2 (amended): any non-zero exit of the simulator invocation is caught
inside `run_one_replica` and converted to a `succeeded=false` record, so
processing continues and a block whose replicas all merely fail still
completes with a manifest and a zero process exit; Tier-1 errors abort the
block, and so do errors reading or parsing the sweep-info file after a
zero-exit simulator invocation. -/
theorem C2_failure_containment :
    (∀ (gunzip : String → Except PyExc String) (o : ReplicaOutcome) (args : Args)
      (paramFile : String) (replicaNum : Nat) (fs : FileSys), o.cosiExit ≠ 0 →
      run_one_replica gunzip o args paramFile replicaNum fs =
        Except.ok (FileSys.setMany (dump_file fs (emptyFileName replicaNum) "") o.simFiles,
          failureDict args replicaNum (drawSeed o.entropy),
          [cosi2_cmd args paramFile replicaNum (drawSeed o.entropy)])) ∧
    (∀ (gunzip : String → Except PyExc String) (oracle : Nat → ReplicaOutcome) (args : Args)
      (fs fs1 : FileSys), prepareParams gunzip fs args = Except.ok fs1 →
      (∀ i, i < args.numSimsInBlock → (oracle i).cosiExit ≠ 0) →
      do_main gunzip oracle args fs =
        Except.ok ⟨dump_file (allFailFS oracle (List.range args.numSimsInBlock) fs1)
            args.outJson
            (writeManifestDicts (allFailDicts oracle args (List.range args.numSimsInBlock))),
          allFailDicts oracle args (List.range args.numSimsInBlock),
          allFailLog oracle args paramFileCombined (List.range args.numSimsInBlock)⟩) ∧
    (∀ (args : Args) (i : Nat) (seed : Int),
      pyLookup "succeeded" (failureDict args i seed) = some (JVal.jbool false)) ∧
    (∀ (gunzip : String → Except PyExc String) (fs : FileSys) (args : Args) (e : PyExc),
      prepareParams gunzip fs args = Except.error e →
      ∀ oracle, do_main gunzip oracle args fs = Except.error e) := by
  refine ⟨run_one_replica_cosi_fail, ?_, fun _ _ _ => rfl, ?_⟩
  · intro gunzip oracle args fs fs1 hp h
    rw [do_main, hp]
    dsimp only
    rw [runReplicas_all_fail gunzip oracle args paramFileCombined _ fs1
      (fun i hi => h i (List.mem_range.mp hi))]
  · intro gunzip fs args e hp oracle
    rw [do_main, hp]

/-- Witness for C2: a concrete two-replica block whose simulator invocations
both exit non-zero still produces a manifest of two failure records (process
exit zero), and a concrete contained single-replica failure. -/
theorem C2_witness :
    run_one_replica gzId ⟨41, 3, 0, []⟩ argsW "p" 1 [] =
      Except.ok (FileSys.setMany (dump_file [] (emptyFileName 1) "") [],
        failureDict argsW 1 (drawSeed 41), [cosi2_cmd argsW "p" 1 (drawSeed 41)]) ∧
    do_main gzU orcFail argsW fsW =
      Except.ok ⟨dump_file (allFailFS orcFail (List.range 2)
          (dump_file fsW paramFileCombined ("AAA\n" ++ "UBBB\n")))
          "out.json" (writeManifestDicts (allFailDicts orcFail argsW (List.range 2))),
        allFailDicts orcFail argsW (List.range 2),
        allFailLog orcFail argsW paramFileCombined (List.range 2)⟩ := by
  constructor
  · exact C2_failure_containment.1 gzId ⟨41, 3, 0, []⟩ argsW "p" 1 [] (by decide)
  · exact C2_failure_containment.2.1 gzU orcFail argsW fsW
      (dump_file fsW paramFileCombined ("AAA\n" ++ "UBBB\n")) rfl
      (fun i _ => by simp [orcFail])

theorem run_one_replica_replicaNum (gunzip : String → Except PyExc String) (o : ReplicaOutcome)
    (args : Args) (paramFile : String) (replicaNum : Nat) (fs fs' : FileSys) (d : PyDict)
    (log : List String)
    (h : run_one_replica gunzip o args paramFile replicaNum fs = Except.ok (fs', d, log)) :
    pyLookup "replicaNum" d = some (JVal.jint (Int.ofNat replicaNum)) := by
  by_cases hc : o.cosiExit ≠ 0
  · simp only [run_one_replica, if_pos hc, Except.ok.injEq, Prod.mk.injEq] at h
    rw [← h.2.1]
    rfl
  · by_cases ht : o.tarExit ≠ 0
    · simp only [run_one_replica, if_neg hc, if_pos ht, Except.ok.injEq, Prod.mk.injEq] at h
      rw [← h.2.1]
      rfl
    · simp only [run_one_replica, if_neg hc, if_neg ht] at h
      split at h
      · exact Except.noConfusion h
      · split at h
        · exact Except.noConfusion h
        · simp only [Except.ok.injEq, Prod.mk.injEq] at h
          rw [← h.2.1]
          rfl

theorem runReplicas_index (gunzip : String → Except PyExc String)
    (oracle : Nat → ReplicaOutcome) (args : Args) (paramFile : String) :
    ∀ (idxs : List Nat) (fs fs2 : FileSys) (ds : List PyDict) (log : List String),
    runReplicas gunzip oracle args paramFile idxs fs = Except.ok (fs2, ds, log) →
    ds.length = idxs.length ∧
    ∀ i (hi : i < ds.length) (hi' : i < idxs.length),
      pyLookup "replicaNum" (ds.get ⟨i, hi⟩) =
        some (JVal.jint (Int.ofNat (idxs.get ⟨i, hi'⟩))) := by
  intro idxs
  induction idxs with
  | nil =>
    intro fs fs2 ds log h
    simp only [runReplicas, Except.ok.injEq, Prod.mk.injEq] at h
    rw [← h.2.1]
    exact ⟨rfl, fun i hi hi' => absurd hi' (Nat.not_lt_zero i)⟩
  | cons j t ih =>
    intro fs fs2 ds log h
    rw [runReplicas] at h
    split at h
    · exact Except.noConfusion h
    · rename_i fs1 d lg heq
      split at h
      · exact Except.noConfusion h
      · rename_i fs2' ds' lgs heq2
        simp only [Except.ok.injEq, Prod.mk.injEq] at h
        obtain ⟨-, hds, -⟩ := h
        obtain ⟨hlen, hidx⟩ := ih _ _ _ _ heq2
        subst hds
        refine ⟨by simp [hlen], ?_⟩
        intro i hi hi'
        match i with
        | 0 => exact run_one_replica_replicaNum gunzip (oracle j) args paramFile j fs _ _ _ heq
        | Nat.succ k =>
          simp only [List.get_cons_succ]
          exact hidx k (by simpa using hi) (by simpa using hi')

/-- C1: whenever `do_main` completes and writes a manifest, the
`replicaInfos` array has length exactly `numSimsInBlock`, its `i`-th entry
has `replicaNum = i` for every `i`, and the manifest written to `outJson` is
the pretty-printed rendering of exactly those entries: every requested
replica index yields exactly one record. -/
theorem C1_manifest_complete (gunzip : String → Except PyExc String)
    (oracle : Nat → ReplicaOutcome) (args : Args) (fs : FileSys) (r : RunResult)
    (h : do_main gunzip oracle args fs = Except.ok r) :
    r.dicts.length = args.numSimsInBlock ∧
    (∀ i (hi : i < r.dicts.length),
      pyLookup "replicaNum" (r.dicts.get ⟨i, hi⟩) = some (JVal.jint (Int.ofNat i))) ∧
    FileSys.get r.fs args.outJson = some (fileOf (writeManifestDicts r.dicts)) := by
  rw [do_main] at h
  split at h
  · exact Except.noConfusion h
  · split at h
    · exact Except.noConfusion h
    · rename_i fs1 heq fs2 ds log heq2
      obtain ⟨hlen, hidx⟩ := runReplicas_index gunzip oracle args paramFileCombined _ _ _ _ _ heq2
      simp only [Except.ok.injEq] at h
      subst h
      refine ⟨by simp [hlen], ?_, get_set_self _ _ _⟩
      intro i hi
      have hi' : i < (List.range args.numSimsInBlock).length := hlen ▸ hi
      have := hidx i hi hi'
      rwa [List.get_range] at this

/-- Witness for C1: a concrete two-replica block (both replicas fail) yields
a manifest with exactly two records, `replicaNum` 0 and 1, written to
`out.json`. -/
theorem C1_witness :
    do_main gzU orcFail argsW fsW =
      Except.ok ⟨dump_file (allFailFS orcFail (List.range 2)
          (dump_file fsW paramFileCombined ("AAA\n" ++ "UBBB\n")))
          "out.json" (writeManifestDicts (allFailDicts orcFail argsW (List.range 2))),
        allFailDicts orcFail argsW (List.range 2),
        allFailLog orcFail argsW paramFileCombined (List.range 2)⟩ ∧
    (allFailDicts orcFail argsW (List.range 2)).length = 2 ∧
    pyLookup "replicaNum" (failureDict argsW 0 (drawSeed 100)) = some (JVal.jint 0) ∧
    pyLookup "replicaNum" (failureDict argsW 1 (drawSeed 101)) = some (JVal.jint 1) := by
  have h := C1_manifest_complete gzU orcFail argsW fsW
    ⟨dump_file (allFailFS orcFail (List.range 2)
        (dump_file fsW paramFileCombined ("AAA\n" ++ "UBBB\n")))
        "out.json" (writeManifestDicts (allFailDicts orcFail argsW (List.range 2))),
      allFailDicts orcFail argsW (List.range 2),
      allFailLog orcFail argsW paramFileCombined (List.range 2)⟩ rfl
  exact ⟨rfl, h.1, rfl, rfl⟩

/-- C5: before any replica runs, exactly one combined parameter file is
written, whose content is the concatenation of the common fragment followed by
the variable fragment (each transparently decompressed when its name ends in
`.gz`, each rejected over the size ceiling); any read error on either source
aborts the whole block, and every replica is then run against the combined
file's fixed path on a file system already holding it. -/
theorem C5_param_combiner (gunzip : String → Except PyExc String) (fs : FileSys) (args : Args) :
    (∀ a b : String, slurp_file gunzip fs args.paramFileCommon (some 50) = Except.ok a →
      slurp_file gunzip fs args.paramFile (some 50) = Except.ok b →
      prepareParams gunzip fs args = Except.ok (dump_file fs paramFileCombined (a ++ b)) ∧
      FileSys.get (dump_file fs paramFileCombined (a ++ b)) paramFileCombined =
        some (fileOf (a ++ b))) ∧
    (∀ e : PyExc, slurp_file gunzip fs args.paramFileCommon (some 50) = Except.error e →
      prepareParams gunzip fs args = Except.error e ∧
      ∀ oracle, do_main gunzip oracle args fs = Except.error e) ∧
    (∀ (a : String) (e : PyExc),
      slurp_file gunzip fs args.paramFileCommon (some 50) = Except.ok a →
      slurp_file gunzip fs args.paramFile (some 50) = Except.error e →
      prepareParams gunzip fs args = Except.error e ∧
      ∀ oracle, do_main gunzip oracle args fs = Except.error e) ∧
    (∀ (fd : FileData) (b : String), FileSys.get fs args.paramFile = some fd →
      strEndsWith args.paramFile ".gz" = true → gunzip fd.raw = Except.ok b →
      fd.size ≤ 50 * 1024 * 1024 →
      slurp_file gunzip fs args.paramFile (some 50) = Except.ok b) ∧
    (∀ (fd : FileData) (a : String), FileSys.get fs args.paramFile = some fd →
      slurp_file gunzip fs args.paramFileCommon (some 50) = Except.ok a →
      fd.size > 50 * 1024 * 1024 →
      prepareParams gunzip fs args = Except.error PyExc.runtimeError) ∧
    (∀ (oracle : Nat → ReplicaOutcome) (fs1 : FileSys),
      prepareParams gunzip fs args = Except.ok fs1 →
      do_main gunzip oracle args fs =
        match runReplicas gunzip oracle args paramFileCombined
            (List.range args.numSimsInBlock) fs1 with
        | Except.error e => Except.error e
        | Except.ok (fs2, ds, log) =>
          Except.ok ⟨dump_file fs2 args.outJson (writeManifestDicts ds), ds, log⟩) := by
  refine ⟨?_, ?_, ?_, ?_, ?_, ?_⟩
  · intro a b ha hb
    rw [prepareParams, ha, hb]
    exact ⟨rfl, get_set_self _ _ _⟩
  · intro e he
    have hp : prepareParams gunzip fs args = Except.error e := by rw [prepareParams, he]
    exact ⟨hp, fun oracle => by rw [do_main, hp]⟩
  · intro a e ha he
    have hp : prepareParams gunzip fs args = Except.error e := by rw [prepareParams, ha, he]
    exact ⟨hp, fun oracle => by rw [do_main, hp]⟩
  · intro fd b hget hgz hb hsz
    simp [slurp_file, hget, open_or_gzopen_read, hgz, hb, Nat.not_lt_of_le hsz]
  · intro fd a hget ha hsz
    have hv : slurp_file gunzip fs args.paramFile (some 50) = Except.error PyExc.runtimeError := by
      simp [slurp_file, hget, hsz]
    rw [prepareParams, ha, hv]
  · intro oracle fs1 hp
    rw [do_main, hp]

/-- Witness for C5 at concrete inputs: `common.par` (plain, `"AAA\n"`) and
`var.par.gz` (gunzips to `"UBBB\n"`) combine into `paramFileCombined.par`
holding `"AAA\nUBBB\n"`; a missing common file aborts with `OSError`; an
oversized variable file aborts with `RuntimeError`. -/
theorem C5_witness :
    prepareParams gzU fsW argsW =
      Except.ok (dump_file fsW paramFileCombined ("AAA\n" ++ "UBBB\n")) ∧
    FileSys.get (dump_file fsW paramFileCombined ("AAA\n" ++ "UBBB\n")) paramFileCombined =
      some (fileOf ("AAA\n" ++ "UBBB\n")) ∧
    slurp_file gzU fsW "var.par.gz" (some 50) = Except.ok "UBBB\n" ∧
    prepareParams gzU [] argsW = Except.error PyExc.osError ∧
    (∀ oracle, do_main gzU oracle argsW [] = Except.error PyExc.osError) ∧
    prepareParams gzU [("common.par", fileOf "AAA\n"), ("var.par.gz", ⟨99999999, "BBB\n"⟩)]
      argsW = Except.error PyExc.runtimeError := by
  have h1 := C5_param_combiner gzU fsW argsW
  have h2 := C5_param_combiner gzU [] argsW
  have h3 := C5_param_combiner gzU
    [("common.par", fileOf "AAA\n"), ("var.par.gz", ⟨99999999, "BBB\n"⟩)] argsW
  obtain ⟨hc1, -⟩ := h1.1 "AAA\n" "UBBB\n" rfl rfl
  refine ⟨hc1, get_set_self _ _ _, ?_, ?_, ?_, ?_⟩
  · exact h1.2.2.2.1 ⟨6, "BBB\n"⟩ "UBBB\n" rfl rfl rfl (by decide)
  · exact (h2.2.1 PyExc.osError rfl).1
  · exact (h2.2.1 PyExc.osError rfl).2
  · exact h3.2.2.2.2.1 ⟨99999999, "BBB\n"⟩ "AAA\n" rfl rfl (by decide)

/-! Decimal digit rendering: correctness of `natDecChars`. -/

theorem digitChar_lt_ten : ∀ d, d < 10 → (digitChar d).toNat = 48 + d ∧
    (digitChar d).isDigit = true ∧ ∃ e, e < 10 ∧ digitChar d = digitChar e := by
  decide

theorem natDecCharsAux_mem : ∀ (f n : Nat), ∀ c ∈ natDecCharsAux f n, ∃ d, d < 10 ∧ c = digitChar d := by
  intro f
  induction f with
  | zero => intro n c hc; cases hc
  | succ f ih =>
    intro n c hc
    rw [natDecCharsAux] at hc
    by_cases hn : n = 0
    · simp [hn] at hc
    · rw [if_neg hn] at hc
      rcases List.mem_append.mp hc with h | h
      · exact ih _ c h
      · rcases List.mem_singleton.mp h with rfl
        exact ⟨n % 10, Nat.mod_lt _ (by decide), rfl⟩

theorem natDecChars_mem (n : Nat) : ∀ c ∈ natDecChars n, ∃ d, d < 10 ∧ c = digitChar d := by
  intro c hc
  rw [natDecChars] at hc
  by_cases hn : n = 0
  · rw [if_pos hn] at hc
    rcases List.mem_singleton.mp hc with rfl
    exact ⟨0, by decide, rfl⟩
  · rw [if_neg hn] at hc
    exact natDecCharsAux_mem n n c hc

theorem decDigitsVal_append_one (l : List Char) (c : Char) :
    decDigitsVal (l ++ [c]) = decDigitsVal l * 10 + (c.toNat - 48) := by
  simp [decDigitsVal, List.foldl_append]

theorem natDecCharsAux_val : ∀ (f n : Nat), n ≤ f → decDigitsVal (natDecCharsAux f n) = n := by
  intro f
  induction f with
  | zero => intro n h; interval_cases n; rfl
  | succ f ih =>
    intro n h
    rw [natDecCharsAux]
    by_cases hn : n = 0
    · simp [hn, decDigitsVal]
    · rw [if_neg hn, decDigitsVal_append_one]
      have h10 : n / 10 ≤ f := by
        have := Nat.div_lt_self (Nat.pos_of_ne_zero hn) (by decide : (1:Nat) < 10)
        omega
      rw [ih _ h10]
      have hd : (digitChar (n % 10)).toNat = 48 + n % 10 :=
        (digitChar_lt_ten _ (Nat.mod_lt _ (by decide))).1
      rw [hd]
      omega

theorem natDecChars_val (n : Nat) : decDigitsVal (natDecChars n) = n := by
  rw [natDecChars]
  by_cases hn : n = 0
  · simp [hn, decDigitsVal]
  · rw [if_neg hn]
    exact natDecCharsAux_val n n le_rfl

theorem natDecChars_ne_nil (n : Nat) : natDecChars n ≠ [] := by
  rw [natDecChars]
  by_cases hn : n = 0
  · simp [hn]
  · rw [if_neg hn]
    rcases n with _ | m
    · exact absurd rfl hn
    · rw [natDecCharsAux, if_neg hn]
      simp

theorem natDecCharsAux_len : ∀ (f n k : Nat), n ≤ f → n < 10 ^ k →
    (natDecCharsAux f n).length ≤ k := by
  intro f
  induction f with
  | zero => intro n k h _; interval_cases n; simp [natDecCharsAux]
  | succ f ih =>
    intro n k h hk
    rw [natDecCharsAux]
    by_cases hn : n = 0
    · simp [hn]
    · rw [if_neg hn]
      rcases k with _ | k
      · simp at hk; omega
      · have h10 : n / 10 ≤ f := by
          have := Nat.div_lt_self (Nat.pos_of_ne_zero hn) (by decide : (1:Nat) < 10)
          omega
        have hk10 : n / 10 < 10 ^ k := by
          rw [Nat.div_lt_iff_lt_mul (by decide : 0 < 10)]
          calc n < 10 ^ (k + 1) := hk
          _ = 10 ^ k * 10 := by ring
        have := ih (n / 10) k h10 hk10
        simp [List.length_append]
        omega

theorem natDecChars_len (n k : Nat) (hk : 1 ≤ k) (h : n < 10 ^ k) :
    (natDecChars n).length ≤ k := by
  rw [natDecChars]
  by_cases hn : n = 0
  · simpa [hn] using hk
  · rw [if_neg hn]
    exact natDecCharsAux_len n n k le_rfl h

/-! Number parsing: `parseNumber` inverts the integer and float renderings. -/

theorem digitChar_classes : ∀ d, d < 10 → (digitChar d).isDigit = true ∧ digitChar d ≠ '-' ∧
    digitChar d ≠ '.' ∧ digitChar d ≠ 'e' ∧ digitChar d ≠ 'E' ∧ digitChar d ≠ '"' ∧
    digitChar d ≠ '[' ∧ digitChar d ≠ '\x7b' ∧ digitChar d ≠ 't' ∧ digitChar d ≠ 'f' ∧
    isWsB (digitChar d) = false ∧ digitChar d ≠ '\\' := by
  decide

theorem mySpan_all (p : Char → Bool) (l rest : List Char) (hl : ∀ c ∈ l, p c = true)
    (hrest : ∀ c, rest.head? = some c → p c = false) :
    mySpan p (l ++ rest) = (l, rest) := by
  induction l with
  | nil =>
    rcases rest with _ | ⟨c, t⟩
    · rfl
    · simp only [List.nil_append, mySpan, hrest c rfl, Bool.false_eq_true, if_false]
  | cons c t ih =>
    have h2 := ih (fun x hx => hl x (List.mem_cons_of_mem c hx))
    simp only [List.cons_append, mySpan, hl c (List.mem_cons_self c t), if_true,
      List.append_eq, h2]


theorem parseNumber_nat (n : Nat) (rest : List Char) (hrest : numBoundary rest) :
    parseNumber (natDecChars n ++ rest) = some (JVal.jint (Int.ofNat n), rest) := by
  obtain ⟨c, t, hct⟩ : ∃ c t, natDecChars n = c :: t := by
    rcases hcs : natDecChars n with _ | ⟨c, t⟩
    · exact absurd hcs (natDecChars_ne_nil n)
    · exact ⟨c, t, rfl⟩
  obtain ⟨d, hd, hcd⟩ := natDecChars_mem n c (hct ▸ List.mem_cons_self c t)
  have hne : c ≠ '-' := hcd ▸ (digitChar_classes d hd).2.1
  have hspan : mySpan Char.isDigit (c :: (t ++ rest)) = (c :: t, rest) := by
    have := mySpan_all Char.isDigit (natDecChars n) rest
      (fun x hx => by
        obtain ⟨e, he, hxe⟩ := natDecChars_mem n x hx
        exact hxe ▸ (digitChar_classes e he).1)
      (fun x hx => (hrest x hx).1)
    rwa [hct, List.cons_append] at this
  rw [parseNumber]
  case x_1 =>
    intro r heq
    rw [hct, List.cons_append, List.cons.injEq] at heq
    exact hne heq.1
  rw [hct, List.cons_append, hspan]
  have hv : decDigitsVal (c :: t) = n := by rw [← hct]; exact natDecChars_val n
  simp only [List.isEmpty_cons, Bool.false_eq_true, if_false]
  rcases rest with _ | ⟨r, rrest⟩
  · simp [hv, Int.ofNat_eq_natCast]
  · obtain ⟨hrd, hrdot, hre, hrE⟩ := hrest r rfl
    split
    · rename_i cs3 heq
      exact absurd (List.cons.injEq .. ▸ heq).1 hrdot
    · rename_i cs3 heq
      exact absurd (List.cons.injEq .. ▸ heq).1 hre
    · rename_i cs3 heq
      exact absurd (List.cons.injEq .. ▸ heq).1 hrE
    · simp [hv, Int.ofNat_eq_natCast]

theorem parseNumber_int (n : Int) (rest : List Char) (hrest : numBoundary rest) :
    parseNumber (intDecChars n ++ rest) = some (JVal.jint n, rest) := by
  rw [intDecChars]
  by_cases hn : n < 0
  · rw [if_pos hn, List.cons_append]
    obtain ⟨c, t, hct⟩ : ∃ c t, natDecChars n.natAbs = c :: t := by
      rcases hcs : natDecChars n.natAbs with _ | ⟨c, t⟩
      · exact absurd hcs (natDecChars_ne_nil n.natAbs)
      · exact ⟨c, t, rfl⟩
    have hspan : mySpan Char.isDigit (c :: (t ++ rest)) = (c :: t, rest) := by
      have := mySpan_all Char.isDigit (natDecChars n.natAbs) rest
        (fun x hx => by
          obtain ⟨e, he, hxe⟩ := natDecChars_mem n.natAbs x hx
          exact hxe ▸ (digitChar_classes e he).1)
        (fun x hx => (hrest x hx).1)
      rwa [hct, List.cons_append] at this
    have hv : decDigitsVal (c :: t) = n.natAbs := by rw [← hct]; exact natDecChars_val n.natAbs
    rw [parseNumber, hct, List.cons_append, hspan]
    simp only [List.isEmpty_cons, Bool.false_eq_true, if_false]
    have habs : -((n.natAbs : Nat) : Int) = n := by omega
    rcases rest with _ | ⟨r, rrest⟩
    · simp [hv, habs, abs_of_nonpos (le_of_lt hn)]
    · obtain ⟨hrd, hrdot, hre, hrE⟩ := hrest r rfl
      split
      · rename_i cs3 heq
        exact absurd (List.cons.injEq .. ▸ heq).1 hrdot
      · rename_i cs3 heq
        exact absurd (List.cons.injEq .. ▸ heq).1 hre
      · rename_i cs3 heq
        exact absurd (List.cons.injEq .. ▸ heq).1 hrE
      · simp [hv, habs, abs_of_nonpos (le_of_lt hn)]
  · rw [if_neg hn, parseNumber_nat n.natAbs rest hrest, Int.ofNat_eq_natCast,
      Int.natAbs_of_nonneg (le_of_not_lt hn)]

/-! Float rendering: the exponent from `maxPow` and the mantissa are exact. -/

theorem maxPowAux_spec (p : Nat) (hp : 2 ≤ p) :
    ∀ (f n : Nat), 1 ≤ n → n ≤ f →
      p ^ maxPowAux p f n ∣ n ∧ ¬ p ^ (maxPowAux p f n + 1) ∣ n := by
  intro f
  induction f with
  | zero => intro n h1 h2; omega
  | succ f ih =>
    intro n h1 h2
    rw [maxPowAux]
    by_cases hc : 2 ≤ p ∧ 0 < n ∧ n % p = 0
    · rw [if_pos hc]
      have hdvd : p ∣ n := Nat.dvd_of_mod_eq_zero hc.2.2
      have hnp1 : 1 ≤ n / p := Nat.one_le_div_iff (by omega) |>.mpr (Nat.le_of_dvd (by omega) hdvd)
      have hnpf : n / p ≤ f := by
        have := Nat.div_lt_self (by omega : 0 < n) (by omega : 1 < p)
        omega
      obtain ⟨ihd, ihnd⟩ := ih (n / p) hnp1 hnpf
      set k := maxPowAux p f (n / p) with hk
      have hn : n = p * (n / p) := (Nat.mul_div_cancel' hdvd).symm
      constructor
      · have hmul : p * p ^ k ∣ p * (n / p) := Nat.mul_dvd_mul_left p ihd
        rw [← hn] at hmul
        rwa [pow_succ, Nat.mul_comm]
      · intro hcon
        apply ihnd
        rw [hn, pow_succ, Nat.mul_comm (p ^ (k + 1)) p] at hcon
        exact (Nat.mul_dvd_mul_iff_left (by omega : 0 < p)).mp hcon
    · rw [if_neg hc]
      refine ⟨Nat.one_dvd n, ?_⟩
      have hmod : n % p ≠ 0 := fun hm => hc ⟨hp, by omega, hm⟩
      rw [pow_one]
      intro hcon
      exact hmod (Nat.mod_eq_zero_of_dvd hcon)

theorem maxPow_unique (p n k : Nat) (hp : 2 ≤ p) (hn : 1 ≤ n)
    (h1 : p ^ k ∣ n) (h2 : ¬ p ^ (k + 1) ∣ n) : maxPow p n = k := by
  obtain ⟨hd, hnd⟩ := maxPowAux_spec p hp n n hn le_rfl
  rw [maxPow]
  rcases Nat.lt_trichotomy (maxPowAux p n n) k with h | h | h
  · exact absurd (dvd_trans (pow_dvd_pow p (by omega)) h1) hnd
  · exact h
  · exact absurd (dvd_trans (pow_dvd_pow p (by omega)) hd) h2

theorem den_eq_maxPow (q : ℚ) (a b : Nat) (h : q.den = 2 ^ a * 5 ^ b) :
    maxPow 2 q.den = a ∧ maxPow 5 q.den = b := by
  have hden : 1 ≤ q.den := q.pos
  constructor
  · refine maxPow_unique 2 q.den a (by omega) hden (h ▸ Dvd.intro _ rfl) ?_
    rw [h]
    intro hcon
    rw [pow_succ] at hcon
    have h5 : 2 ∣ 5 ^ b :=
      (Nat.mul_dvd_mul_iff_left (show 0 < 2 ^ a by positivity)).mp hcon
    exact absurd (Nat.Prime.dvd_of_dvd_pow Nat.prime_two h5) (by decide)
  · refine maxPow_unique 5 q.den b (by omega) hden (h ▸ Dvd.intro_left _ rfl) ?_
    rw [h]
    intro hcon
    rw [pow_succ, Nat.mul_comm (2 ^ a) (5 ^ b)] at hcon
    have h2 : 5 ∣ 2 ^ a :=
      (Nat.mul_dvd_mul_iff_left (show 0 < 5 ^ b by positivity)).mp hcon
    exact absurd (Nat.Prime.dvd_of_dvd_pow Nat.prime_five h2) (by decide)

theorem den_dvd_pow10 (q : ℚ) (h : IsDecimalRat q) : (q.den : Nat) ∣ 10 ^ floatExp q := by
  obtain ⟨a, b, hab⟩ := h
  obtain ⟨h2, h5⟩ := den_eq_maxPow q a b hab
  rw [floatExp, h2, h5, hab, show (10 : Nat) = 2 * 5 from rfl, Nat.mul_pow]
  exact Nat.mul_dvd_mul (pow_dvd_pow 2 (Nat.le_max_left a b)) (pow_dvd_pow 5 (Nat.le_max_right a b))

theorem floatMantissa_spec (q : ℚ) (h : IsDecimalRat q) :
    (floatMantissa q : ℚ) = q * 10 ^ floatExp q := by
  have hdvd : ((q.den : Int)) ∣ q.num * (10 : Int) ^ floatExp q := by
    exact_mod_cast Dvd.dvd.mul_left (Int.natCast_dvd_natCast.mpr (den_dvd_pow10 q h)) q.num
  have hex : floatMantissa q * (q.den : Int) = q.num * (10 : Int) ^ floatExp q := by
    rw [floatMantissa]
    exact Int.ediv_mul_cancel hdvd
  have hden0 : ((q.den : ℚ)) ≠ 0 := by
    exact_mod_cast q.den_nz
  have hcast : (floatMantissa q : ℚ) * (q.den : ℚ) = (q.num : ℚ) * 10 ^ floatExp q := by
    exact_mod_cast congrArg (fun z : Int => (z : ℚ)) hex
  have hq : (q.num : ℚ) = q * (q.den : ℚ) := (div_eq_iff hden0).mp (Rat.num_div_den q)
  rw [hq] at hcast
  have hfin : (floatMantissa q : ℚ) * (q.den : ℚ) = q * 10 ^ floatExp q * (q.den : ℚ) := by
    rw [hcast]; ring
  exact mul_right_cancel₀ hden0 hfin

theorem decDigitsVal_replicate_zero (k : Nat) (l : List Char) :
    decDigitsVal (List.replicate k '0' ++ l) = decDigitsVal l := by
  induction k with
  | zero => rfl
  | succ k ih =>
    rw [List.replicate_succ, List.cons_append]
    show decDigitsVal (List.replicate k '0' ++ l) = _
    exact ih

theorem fracDigitsChars_mem (e fr : Nat) :
    ∀ c ∈ fracDigitsChars e fr, ∃ d, d < 10 ∧ c = digitChar d := by
  intro c hc
  rw [fracDigitsChars] at hc
  by_cases he : e = 0
  · rw [if_pos he] at hc
    rcases List.mem_singleton.mp hc with rfl
    exact ⟨0, by decide, rfl⟩
  · rw [if_neg he] at hc
    rcases List.mem_append.mp hc with h | h
    · rcases List.eq_of_mem_replicate h with rfl
      exact ⟨0, by decide, rfl⟩
    · exact natDecChars_mem fr c h

theorem fracDigitsChars_ne_nil (e fr : Nat) : fracDigitsChars e fr ≠ [] := by
  rw [fracDigitsChars]
  by_cases he : e = 0
  · simp [he]
  · rw [if_neg he]
    intro hcon
    exact natDecChars_ne_nil fr (List.append_eq_nil.mp hcon).2

theorem fracDigitsChars_val (e fr : Nat) (hfr : fr < 10 ^ e) :
    decDigitsVal (fracDigitsChars e fr) = fr := by
  by_cases he : e = 0
  · subst he
    simp only [pow_zero, Nat.lt_one_iff] at hfr
    subst hfr
    rfl
  · rw [fracDigitsChars, if_neg he, decDigitsVal_replicate_zero]
    exact natDecChars_val fr

theorem fracDigitsChars_len (e fr : Nat) (hfr : fr < 10 ^ e) (he : e ≠ 0) :
    (fracDigitsChars e fr).length = e := by
  rw [fracDigitsChars, if_neg he]
  have hle : (natDecChars fr).length ≤ e := natDecChars_len fr e (by omega) hfr
  rw [List.length_append, List.length_replicate]
  omega

theorem parseNumber_float (q : ℚ) (rest : List Char) (h : IsDecimalRat q)
    (hrest : numBoundary rest) :
    parseNumber (floatDecChars q ++ rest) = some (JVal.jrat q, rest) := by
  rw [floatDecChars]
  set e := floatExp q with he
  set m := floatMantissa q with hm
  set a := m.natAbs with ha
  set ip := a / 10 ^ e with hip
  set fr := a % 10 ^ e with hfr
  have hfre : fr < 10 ^ e := Nat.mod_lt _ (by positivity)
  have hqv : (m : ℚ) = q * 10 ^ e := floatMantissa_spec q h
  have hq : q = (m : ℚ) / 10 ^ e := by
    rw [hqv]
    field_simp
  have hmag : ((ip : ℚ)) + ((fr : ℚ)) / 10 ^ (fracDigitsChars e fr).length =
      (a : ℚ) / 10 ^ e := by
    by_cases he0 : e = 0
    · rw [hip, hfr, he0]
      simp [Nat.mod_one, Nat.div_one]
    · rw [fracDigitsChars_len e fr hfre he0]
      have hnat : 10 ^ e * ip + fr = a := Nat.div_add_mod a (10 ^ e)
      have hcast : (10 : ℚ) ^ e * (ip : ℚ) + (fr : ℚ) = (a : ℚ) := by exact_mod_cast hnat
      rw [eq_div_iff (show ((10 : ℚ) ^ e) ≠ 0 by positivity), add_mul,
        div_mul_cancel₀ _ (show ((10 : ℚ) ^ e) ≠ 0 by positivity)]
      linear_combination hcast
  obtain ⟨c, t, hct⟩ : ∃ c t, natDecChars ip = c :: t := by
    rcases hcs : natDecChars ip with _ | ⟨c, t⟩
    · exact absurd hcs (natDecChars_ne_nil ip)
    · exact ⟨c, t, rfl⟩
  obtain ⟨d, hd, hcd⟩ := natDecChars_mem ip c (hct ▸ List.mem_cons_self c t)
  have hne : c ≠ '-' := hcd ▸ (digitChar_classes d hd).2.1
  obtain ⟨fc, ft, hfct⟩ : ∃ fc ft, fracDigitsChars e fr = fc :: ft := by
    rcases hcs : fracDigitsChars e fr with _ | ⟨fc, ft⟩
    · exact absurd hcs (fracDigitsChars_ne_nil e fr)
    · exact ⟨fc, ft, rfl⟩
  have hspan_ip : mySpan Char.isDigit (c :: (t ++ ('.' :: (fracDigitsChars e fr ++ rest)))) =
      (c :: t, '.' :: (fracDigitsChars e fr ++ rest)) := by
    have := mySpan_all Char.isDigit (natDecChars ip) ('.' :: (fracDigitsChars e fr ++ rest))
      (fun x hx => by
        obtain ⟨ee, hee, hxe⟩ := natDecChars_mem ip x hx
        exact hxe ▸ (digitChar_classes ee hee).1)
      (fun x hx => by
        rw [List.head?_cons, Option.some.injEq] at hx
        subst hx
        decide)
    rwa [hct, List.cons_append] at this
  have hspan_fr : mySpan Char.isDigit (fc :: (ft ++ rest)) = (fc :: ft, rest) := by
    have := mySpan_all Char.isDigit (fracDigitsChars e fr) rest
      (fun x hx => by
        obtain ⟨ee, hee, hxe⟩ := fracDigitsChars_mem e fr x hx
        exact hxe ▸ (digitChar_classes ee hee).1)
      (fun x hx => (hrest x hx).1)
    rwa [hfct, List.cons_append] at this
  have hipval : decDigitsVal (c :: t) = ip := by rw [← hct]; exact natDecChars_val ip
  have hfrval : decDigitsVal (fc :: ft) = fr := by rw [← hfct]; exact fracDigitsChars_val e fr hfre
  have hflen : (fc :: ft).length = (fracDigitsChars e fr).length := by rw [← hfct]
  have hvalq : ∀ v : ℚ,
      v = (decDigitsVal (c :: t) : ℚ) + (decDigitsVal (fc :: ft) : ℚ) / 10 ^ (fc :: ft).length →
      (if m < 0 then -v else v) = q := by
    intro v hv
    rw [hv, hipval, hfrval, hflen, hmag, hq]
    by_cases hm0 : m < 0
    · rw [if_pos hm0, ha, Int.cast_natAbs, abs_of_neg hm0]
      push_cast
      ring
    · rw [if_neg hm0, ha, Int.cast_natAbs, abs_of_nonneg (le_of_not_lt hm0)]
  by_cases hm0 : m < 0
  · have hval : -((decDigitsVal (c :: t) : ℚ) +
        (decDigitsVal (fc :: ft) : ℚ) / 10 ^ (fc :: ft).length) = q := by
      have hvv := hvalq _ rfl
      rwa [if_pos hm0] at hvv
    rw [if_pos hm0]
    simp only [List.cons_append, List.nil_append, List.append_assoc]
    rw [parseNumber, hct, List.cons_append, hspan_ip]
    simp only [List.isEmpty_cons, Bool.false_eq_true, if_false, hfct, List.cons_append, hspan_fr]
    rcases rest with _ | ⟨r, rrest⟩
    · rw [if_true, hval]
    · obtain ⟨hrd, hrdot, hre, hrE⟩ := hrest r rfl
      split
      · rename_i cs5 heq
        exact absurd (List.cons.injEq .. ▸ heq).1 hre
      · rename_i cs5 heq
        exact absurd (List.cons.injEq .. ▸ heq).1 hrE
      · rw [if_true, hval]
  · have hval : ((decDigitsVal (c :: t) : ℚ) +
        (decDigitsVal (fc :: ft) : ℚ) / 10 ^ (fc :: ft).length) = q := by
      have hvv := hvalq _ rfl
      rwa [if_neg hm0] at hvv
    rw [if_neg hm0]
    simp only [List.nil_append, List.append_assoc, List.cons_append]
    rw [parseNumber]
    pick_goal 2
    · intro r heq
      rw [hct, List.cons_append, List.cons.injEq] at heq
      exact hne heq.1
    rw [hct, List.cons_append, hspan_ip]
    simp only [List.isEmpty_cons, Bool.false_eq_true, if_false, hfct, List.cons_append, hspan_fr]
    rcases rest with _ | ⟨r, rrest⟩
    · rw [hval]
    · obtain ⟨hrd, hrdot, hre, hrE⟩ := hrest r rfl
      split
      · rename_i cs5 heq
        exact absurd (List.cons.injEq .. ▸ heq).1 hre
      · rename_i cs5 heq
        exact absurd (List.cons.injEq .. ▸ heq).1 hrE
      · rw [hval]

/-! String escaping: `parseStringBody` inverts `escapeChar`. -/

theorem hexVal_hexChar : ∀ d, d < 16 → hexVal (hexChar d) = some d := by
  decide

theorem char_valid_ranges (c : Char) :
    c.toNat < 55296 ∨ (57343 < c.toNat ∧ c.toNat < 1114112) := by
  have := c.valid
  rcases this with h | ⟨h1, h2⟩
  · left; exact h
  · right; exact ⟨h1, h2⟩

theorem parseHex4_toHex4 (n : Nat) (rest : List Char) (h : n < 65536) :
    parseHex4 (toHex4 n ++ rest) = some (n, rest) := by
  rw [toHex4]
  simp only [List.cons_append, List.nil_append, parseHex4,
    hexVal_hexChar (n / 4096 % 16) (Nat.mod_lt _ (by decide)),
    hexVal_hexChar (n / 256 % 16) (Nat.mod_lt _ (by decide)),
    hexVal_hexChar (n / 16 % 16) (Nat.mod_lt _ (by decide)),
    hexVal_hexChar (n % 16) (Nat.mod_lt _ (by decide))]
  congr 2
  omega

theorem parseEscape_escapeChar (c : Char) (tail : List Char) :
    ∀ pre rest, escapeChar c = '\\' :: pre → rest = pre ++ tail →
    parseEscape rest = some (c, tail) := by
  intro pre rest hesc hrest
  subst hrest
  rw [escapeChar] at hesc
  by_cases h1 : c = '"'
  · rw [if_pos h1] at hesc
    cases hesc
    subst h1
    rfl
  rw [if_neg h1] at hesc
  by_cases h2 : c = '\\'
  · rw [if_pos h2] at hesc
    cases hesc
    subst h2
    rfl
  rw [if_neg h2] at hesc
  by_cases h3 : c = '\x08'
  · rw [if_pos h3] at hesc
    cases hesc
    subst h3
    rfl
  rw [if_neg h3] at hesc
  by_cases h4 : c = '\t'
  · rw [if_pos h4] at hesc
    cases hesc
    subst h4
    rfl
  rw [if_neg h4] at hesc
  by_cases h5 : c = '\n'
  · rw [if_pos h5] at hesc
    cases hesc
    subst h5
    rfl
  rw [if_neg h5] at hesc
  by_cases h6 : c = '\x0c'
  · rw [if_pos h6] at hesc
    cases hesc
    subst h6
    rfl
  rw [if_neg h6] at hesc
  by_cases h7 : c = '\r'
  · rw [if_pos h7] at hesc
    cases hesc
    subst h7
    rfl
  rw [if_neg h7] at hesc
  by_cases h8 : c.toNat < 32
  · rw [if_pos h8] at hesc
    cases hesc
    rw [List.cons_append, parseEscape, if_neg (by decide), if_neg (by decide),
      if_neg (by decide), if_neg (by decide), if_neg (by decide), if_neg (by decide),
      if_neg (by decide), if_neg (by decide), if_pos rfl,
      parseHex4_toHex4 c.toNat tail (by omega)]
    dsimp only
    have hns : ¬ (55296 ≤ c.toNat ∧ c.toNat ≤ 56319) := by omega
    have hns2 : ¬ (56320 ≤ c.toNat ∧ c.toNat ≤ 57343) := by omega
    rw [if_neg hns, if_neg hns2, Char.ofNat_toNat]
  rw [if_neg h8] at hesc
  by_cases h9 : c.toNat < 127
  · rw [if_pos h9] at hesc
    cases hesc
    exact absurd rfl h2
  rw [if_neg h9] at hesc
  by_cases h10 : c.toNat < 65536
  · rw [if_pos h10] at hesc
    cases hesc
    rw [List.cons_append, parseEscape, if_neg (by decide), if_neg (by decide),
      if_neg (by decide), if_neg (by decide), if_neg (by decide), if_neg (by decide),
      if_neg (by decide), if_neg (by decide), if_pos rfl,
      parseHex4_toHex4 c.toNat tail (by omega)]
    dsimp only
    have hval := char_valid_ranges c
    have hns : ¬ (55296 ≤ c.toNat ∧ c.toNat ≤ 56319) := by omega
    have hns2 : ¬ (56320 ≤ c.toNat ∧ c.toNat ≤ 57343) := by omega
    rw [if_neg hns, if_neg hns2, Char.ofNat_toNat]
  · rw [if_neg h10] at hesc
    have hval := char_valid_ranges c
    have hlt : c.toNat < 1114112 := by omega
    have hdivle : (c.toNat - 65536) / 1024 ≤ 1023 := by omega
    have hmodlt : (c.toNat - 65536) % 1024 < 1024 := Nat.mod_lt _ (by decide)
    cases hesc
    simp only [List.append_eq, List.cons_append, List.append_assoc]
    rw [parseEscape, if_neg (by decide),
      if_neg (by decide), if_neg (by decide), if_neg (by decide), if_neg (by decide),
      if_neg (by decide), if_neg (by decide), if_neg (by decide), if_pos rfl,
      parseHex4_toHex4 (55296 + (c.toNat - 65536) / 1024) _ (by omega)]
    dsimp only
    rw [if_pos (by omega : 55296 ≤ 55296 + (c.toNat - 65536) / 1024 ∧
      55296 + (c.toNat - 65536) / 1024 ≤ 56319)]
    split
    · rename_i rest2 heq
      simp only [List.cons.injEq, true_and] at heq
      rw [← heq, parseHex4_toHex4 (56320 + (c.toNat - 65536) % 1024) tail (by omega)]
      dsimp only
      rw [if_pos (by omega : 56320 ≤ 56320 + (c.toNat - 65536) % 1024 ∧
        56320 + (c.toNat - 65536) % 1024 ≤ 57343)]
      have hcomb : 65536 + (55296 + (c.toNat - 65536) / 1024 - 55296) * 1024 +
          (56320 + (c.toNat - 65536) % 1024 - 56320) = c.toNat := by
        have := Nat.div_add_mod (c.toNat - 65536) 1024
        omega
      rw [hcomb, Char.ofNat_toNat]
    · rename_i hnomatch
      exact (hnomatch (toHex4 (56320 + (c.toNat - 65536) % 1024) ++ tail) rfl).elim

theorem escapeChar_backslash_or_literal (c : Char) :
    (∃ pre, escapeChar c = '\\' :: pre) ∨
    (escapeChar c = [c] ∧ c ≠ '"' ∧ c ≠ '\\' ∧ 32 ≤ c.toNat) := by
  rw [escapeChar]
  by_cases h1 : c = '"'
  · exact Or.inl ⟨_, by rw [if_pos h1]⟩
  rw [if_neg h1]
  by_cases h2 : c = '\\'
  · exact Or.inl ⟨_, by rw [if_pos h2]⟩
  rw [if_neg h2]
  by_cases h3 : c = '\x08'
  · exact Or.inl ⟨_, by rw [if_pos h3]⟩
  rw [if_neg h3]
  by_cases h4 : c = '\t'
  · exact Or.inl ⟨_, by rw [if_pos h4]⟩
  rw [if_neg h4]
  by_cases h5 : c = '\n'
  · exact Or.inl ⟨_, by rw [if_pos h5]⟩
  rw [if_neg h5]
  by_cases h6 : c = '\x0c'
  · exact Or.inl ⟨_, by rw [if_pos h6]⟩
  rw [if_neg h6]
  by_cases h7 : c = '\r'
  · exact Or.inl ⟨_, by rw [if_pos h7]⟩
  rw [if_neg h7]
  by_cases h8 : c.toNat < 32
  · exact Or.inl ⟨_, by rw [if_pos h8]⟩
  rw [if_neg h8]
  by_cases h9 : c.toNat < 127
  · rw [if_pos h9]
    exact Or.inr ⟨rfl, h1, h2, by omega⟩
  rw [if_neg h9]
  by_cases h10 : c.toNat < 65536
  · exact Or.inl ⟨_, by rw [if_pos h10]⟩
  · exact Or.inl ⟨_, by rw [if_neg h10, List.cons_append]⟩

theorem parseStringBody_encode (l : List Char) :
    ∀ (rest : List Char) (f : Nat), (l.flatMap escapeChar).length + 1 ≤ f →
    parseStringBody f (l.flatMap escapeChar ++ '"' :: rest) = some (l, rest) := by
  induction l with
  | nil =>
    intro rest f hf
    rcases f with _ | f
    · omega
    · rfl
  | cons c t ih =>
    intro rest f hf
    rw [List.flatMap_cons] at hf ⊢
    rw [List.append_assoc]
    rcases escapeChar_backslash_or_literal c with ⟨pre, hpre⟩ | ⟨hlit, hq, hbs, hge⟩
    · rw [hpre] at hf ⊢
      rcases f with _ | f
      · simp at hf
      · rw [List.cons_append, parseStringBody, if_neg (by decide), if_pos rfl,
          parseEscape_escapeChar c (t.flatMap escapeChar ++ '"' :: rest) pre _ hpre rfl]
        dsimp only
        rw [ih rest f (by simp at hf ⊢; omega)]
    · rw [hlit] at hf ⊢
      rcases f with _ | f
      · simp at hf
      · have hnq : ¬ c = '"' := hq
        have hnbs : ¬ c = '\\' := hbs
        have hnctl : ¬ c.toNat < 32 := by omega
        rw [List.cons_append, parseStringBody, if_neg hnq, if_neg hnbs, if_neg hnctl]
        rw [List.nil_append, ih rest f (by simp at hf ⊢; omega)]

/-! Whitespace handling and scalar values for the JSON parser. -/

theorem skipWs_append_ws (ws cs : List Char) (h : allWs ws) :
    skipWs (ws ++ cs) = skipWs cs := by
  induction ws with
  | nil => rfl
  | cons c t ih =>
    rw [List.cons_append, skipWs, List.dropWhile_cons,
      if_pos (h c (List.mem_cons_self c t))]
    exact ih (fun x hx => h x (List.mem_cons_of_mem c hx))

theorem skipWs_not (cs : List Char) (h : ∀ c, cs.head? = some c → isWsB c = false) :
    skipWs cs = cs := by
  rcases cs with _ | ⟨c, t⟩
  · rfl
  · rw [skipWs, List.dropWhile_cons, if_neg (by simp [h c rfl])]

set_option maxHeartbeats 2000000 in
theorem parseVal_to_number (f : Nat) (cs : List Char) (c : Char) (t : List Char)
    (hcs : skipWs cs = c :: t) (hc : (∃ d, d < 10 ∧ c = digitChar d) ∨ c = '-') :
    parseVal (f + 1) cs = parseNumber (c :: t) := by
  rw [parseVal, hcs]
  have hq : c ≠ '"' := by
    rcases hc with ⟨d, hd, rfl⟩ | rfl
    · exact (digitChar_classes d hd).2.2.2.2.2.1
    · decide
  have hbr : c ≠ '[' := by
    rcases hc with ⟨d, hd, rfl⟩ | rfl
    · exact (digitChar_classes d hd).2.2.2.2.2.2.1
    · decide
  have hcu : c ≠ '\x7b' := by
    rcases hc with ⟨d, hd, rfl⟩ | rfl
    · exact (digitChar_classes d hd).2.2.2.2.2.2.2.1
    · decide
  have ht : c ≠ 't' := by
    rcases hc with ⟨d, hd, rfl⟩ | rfl
    · exact (digitChar_classes d hd).2.2.2.2.2.2.2.2.1
    · decide
  have hfa : c ≠ 'f' := by
    rcases hc with ⟨d, hd, rfl⟩ | rfl
    · exact (digitChar_classes d hd).2.2.2.2.2.2.2.2.2.1
    · decide
  split
  · rename_i heq
    exact (List.cons_ne_nil c t heq).elim
  · rename_i heq
    exact absurd (List.cons.injEq .. ▸ heq).1 hq
  · rename_i heq
    exact absurd (List.cons.injEq .. ▸ heq).1 hbr
  · rename_i heq
    exact absurd (List.cons.injEq .. ▸ heq).1 hcu
  · rename_i heq
    exact absurd (List.cons.injEq .. ▸ heq).1 ht
  · rename_i heq
    exact absurd (List.cons.injEq .. ▸ heq).1 hfa
  · rfl

theorem floatDecChars_head (q : ℚ) :
    ∃ c t, floatDecChars q = c :: t ∧ ((∃ d, d < 10 ∧ c = digitChar d) ∨ c = '-') := by
  rw [floatDecChars]
  by_cases hm : floatMantissa q < 0
  · rw [if_pos hm]
    exact ⟨'-', _, rfl, Or.inr rfl⟩
  · rw [if_neg hm, List.nil_append]
    obtain ⟨c, t, hct⟩ : ∃ c t,
        natDecChars ((floatMantissa q).natAbs / 10 ^ floatExp q) = c :: t := by
      rcases hcs : natDecChars ((floatMantissa q).natAbs / 10 ^ floatExp q) with _ | ⟨c, t⟩
      · exact absurd hcs (natDecChars_ne_nil _)
      · exact ⟨c, t, rfl⟩
    obtain ⟨d, hd, hcd⟩ := natDecChars_mem _ c (hct ▸ List.mem_cons_self c t)
    exact ⟨c, _, by rw [hct, List.cons_append], Or.inl ⟨d, hd, hcd⟩⟩

theorem intDecChars_head (n : Int) :
    ∃ c t, intDecChars n = c :: t ∧ ((∃ d, d < 10 ∧ c = digitChar d) ∨ c = '-') := by
  rw [intDecChars]
  by_cases hn : n < 0
  · rw [if_pos hn]
    exact ⟨'-', _, rfl, Or.inr rfl⟩
  · rw [if_neg hn]
    obtain ⟨c, t, hct⟩ : ∃ c t, natDecChars n.natAbs = c :: t := by
      rcases hcs : natDecChars n.natAbs with _ | ⟨c, t⟩
      · exact absurd hcs (natDecChars_ne_nil _)
      · exact ⟨c, t, rfl⟩
    obtain ⟨d, hd, hcd⟩ := natDecChars_mem _ c (hct ▸ List.mem_cons_self c t)
    exact ⟨c, t, hct, Or.inl ⟨d, hd, hcd⟩⟩

theorem digitChar_or_dash_not_ws (c : Char)
    (hc : (∃ d, d < 10 ∧ c = digitChar d) ∨ c = '-') : isWsB c = false := by
  rcases hc with ⟨d, hd, rfl⟩ | rfl
  · exact (digitChar_classes d hd).2.2.2.2.2.2.2.2.2.2.1
  · decide

theorem parseVal_scalar (f : Nat) (v : JVal) (rest : List Char) (hv : ScalarOK v)
    (hrest : numBoundary rest) :
    parseVal (f + 1) (scalarChars v ++ rest) = some (v, rest) := by
  rcases v with s | n | q | b | l | es
  · simp only [scalarChars, encodeStrChars, List.cons_append, List.append_assoc,
      List.singleton_append, List.nil_append]
    rw [parseVal,
      skipWs_not _ (fun c hc => by rw [List.head?_cons, Option.some.injEq] at hc; subst hc; rfl)]
    split
    · rename_i heq
      exact (List.cons_ne_nil _ _ heq).elim
    · rename_i r1 heq
      simp only [List.cons.injEq, true_and] at heq
      subst heq
      rw [parseStringBody_encode s.toList rest _ (by
        rw [List.length_append]
        omega)]
      rfl
    · rename_i r1 heq
      simp only [List.cons.injEq] at heq
      exact absurd heq.1 (by decide)
    · rename_i r1 heq
      simp only [List.cons.injEq] at heq
      exact absurd heq.1 (by decide)
    · rename_i r1 heq
      simp only [List.cons.injEq] at heq
      exact absurd heq.1 (by decide)
    · rename_i r1 heq
      simp only [List.cons.injEq] at heq
      exact absurd heq.1 (by decide)
    · rename_i hne h1 h2 h3 h4 h5 h6
      exact (h2 _ rfl).elim
  · obtain ⟨c, t, hct, hc⟩ := intDecChars_head n
    rw [scalarChars, hct, List.cons_append,
      parseVal_to_number f _ c (t ++ rest)
        (skipWs_not _ (fun x hx => by
          rw [List.head?_cons, Option.some.injEq] at hx
          subst hx
          exact digitChar_or_dash_not_ws c hc))
        hc,
      ← List.cons_append, ← hct, parseNumber_int n rest hrest]
  · obtain ⟨c, t, hct, hc⟩ := floatDecChars_head q
    rw [scalarChars, hct, List.cons_append,
      parseVal_to_number f _ c (t ++ rest)
        (skipWs_not _ (fun x hx => by
          rw [List.head?_cons, Option.some.injEq] at hx
          subst hx
          exact digitChar_or_dash_not_ws c hc))
        hc,
      ← List.cons_append, ← hct, parseNumber_float q rest hv hrest]
  · rcases b with _ | _
    · simp only [scalarChars, List.cons_append, List.singleton_append]
      rw [parseVal]
      rfl
    · simp only [scalarChars, List.cons_append, List.singleton_append]
      rw [parseVal]
      rfl
  · exact absurd hv not_false
  · exact absurd hv not_false

/-! Further whitespace and list helpers for the JSON round-trip. -/

theorem skipWs_cons_ws (c : Char) (cs : List Char) (h : isWsB c = true) :
    skipWs (c :: cs) = skipWs cs := by
  simp [skipWs, List.dropWhile_cons, h]

theorem skipWs_idem (cs : List Char) : skipWs (skipWs cs) = skipWs cs := by
  induction cs with
  | nil => rfl
  | cons c t ih =>
    by_cases h : isWsB c = true
    · rw [skipWs_cons_ws c t h]
      exact ih
    · have hc : isWsB c = false := by
        revert h
        cases isWsB c <;> simp
      have hni : ∀ d, (c :: t).head? = some d → isWsB d = false := by
        intro d hd
        rw [List.head?_cons, Option.some.injEq] at hd
        subst hd
        exact hc
      rw [skipWs_not (c :: t) hni, skipWs_not (c :: t) hni]

theorem parseVal_skipWs (f : Nat) (cs : List Char) :
    parseVal f (skipWs cs) = parseVal f cs := by
  cases f with
  | zero => rfl
  | succ g =>
    rw [parseVal, skipWs_idem]
    conv_rhs => rw [parseVal]

theorem parseEntries_skipWs (f : Nat) (cs : List Char) :
    parseEntries f (skipWs cs) = parseEntries f cs := by
  cases f with
  | zero => rfl
  | succ g =>
    rw [parseEntries, skipWs_idem]
    conv_rhs => rw [parseEntries]

theorem parseItems_skipWs (f : Nat) (cs : List Char) :
    parseItems f (skipWs cs) = parseItems f cs := by
  cases f with
  | zero => rfl
  | succ g =>
    rw [parseItems, parseVal_skipWs]
    conv_rhs => rw [parseItems]

theorem parseVal_cons_ws (f : Nat) (c : Char) (cs : List Char) (h : isWsB c = true) :
    parseVal f (c :: cs) = parseVal f cs := by
  cases f with
  | zero => rfl
  | succ g =>
    rw [parseVal, skipWs_cons_ws c cs h]
    conv_rhs => rw [parseVal]

theorem parseEntries_cons_ws (f : Nat) (c : Char) (cs : List Char) (h : isWsB c = true) :
    parseEntries f (c :: cs) = parseEntries f cs := by
  cases f with
  | zero => rfl
  | succ g =>
    rw [parseEntries, skipWs_cons_ws c cs h]
    conv_rhs => rw [parseEntries]

theorem allWs_indent (lvl : Nat) : allWs (indentChars lvl) := by
  intro c hc
  rw [indentChars] at hc
  rw [List.eq_of_mem_replicate hc]
  rfl

theorem allWs_append (a b : List Char) (ha : allWs a) (hb : allWs b) : allWs (a ++ b) := by
  intro c hc
  exact (List.mem_append.mp hc).elim (ha c) (hb c)

theorem allWs_cons (c : Char) (cs : List Char) (hc : isWsB c = true) (h : allWs cs) :
    allWs (c :: cs) := by
  intro d hd
  rcases List.mem_cons.mp hd with rfl | hd
  · exact hc
  · exact h d hd

theorem allWs_nil : allWs [] := by
  intro c hc
  exact absurd hc (List.not_mem_nil c)

theorem intercalate_one (sep x : List Char) : List.intercalate sep [x] = x := by
  simp [List.intercalate, List.intersperse]

theorem intercalate_two (sep x y : List Char) (zs : List (List Char)) :
    List.intercalate sep (x :: y :: zs) = x ++ sep ++ List.intercalate sep (y :: zs) := by
  simp [List.intercalate, List.intersperse, List.append_assoc]

/-! Permutation facts about the stable key sort of `json.dumps(sort_keys=True)`. -/

theorem insortEntry_perm (kv : String × JVal) (l : PyDict) :
    List.Perm (insortEntry kv l) (kv :: l) := by
  induction l with
  | nil => exact List.Perm.refl _
  | cons h t ih =>
    rw [insortEntry]
    by_cases hlt : kv.1 < h.1
    · rw [if_pos hlt]
    · rw [if_neg hlt]
      exact (ih.cons h).trans (List.Perm.swap kv h t)

theorem sortEntries_perm (d : PyDict) : List.Perm (sortEntries d) d := by
  induction d with
  | nil => exact List.Perm.refl _
  | cons kv t ih =>
    rw [sortEntries, List.foldr_cons]
    exact (insortEntry_perm kv _).trans (ih.cons kv)

theorem sortEntries_length (d : PyDict) : (sortEntries d).length = d.length :=
  (sortEntries_perm d).length_eq

theorem mem_sortEntries (d : PyDict) (kv : String × JVal) :
    kv ∈ sortEntries d ↔ kv ∈ d :=
  (sortEntries_perm d).mem_iff

theorem sortEntries_eq_nil (d : PyDict) (h : sortEntries d = []) : d = [] := by
  have := sortEntries_length d
  rw [h] at this
  exact List.length_eq_zero.mp this.symm

/-- In a list with pairwise-distinct keys, two members with the same key
coincide. -/
theorem eq_of_mem_of_nodup_keys (l : PyDict) (hn : (l.map Prod.fst).Nodup)
    (a b : String × JVal) (ha : a ∈ l) (hb : b ∈ l) (hk : a.1 = b.1) : a = b := by
  induction l with
  | nil => exact absurd ha (List.not_mem_nil a)
  | cons h t ih =>
    rw [List.map_cons, List.nodup_cons] at hn
    rcases List.mem_cons.mp ha with ha' | ha'
    · rcases List.mem_cons.mp hb with hb' | hb'
      · rw [ha', hb']
      · exfalso
        apply hn.1
        have hm : h.1 ∈ List.map Prod.fst t := by
          rw [← ha', hk]
          exact List.mem_map_of_mem Prod.fst hb'
        exact hm
    · rcases List.mem_cons.mp hb with hb' | hb'
      · exfalso
        apply hn.1
        have hm : h.1 ∈ List.map Prod.fst t := by
          rw [← hb', ← hk]
          exact List.mem_map_of_mem Prod.fst ha'
        exact hm
      · exact ih hn.2 ha' hb' 

theorem find?_eq_of_perm (l1 l2 : PyDict) (hp : List.Perm l1 l2)
    (hn : (l2.map Prod.fst).Nodup) (k : String) :
    List.find? (fun kv => kv.1 == k) l1 = List.find? (fun kv => kv.1 == k) l2 := by
  rcases h2 : List.find? (fun kv => kv.1 == k) l2 with _ | kv
  · rw [h2, List.find?_eq_none]
    intro x hx
    exact List.find?_eq_none.mp h2 x (hp.mem_iff.mp hx)
  · have hkv2 : kv ∈ l2 := List.mem_of_find?_eq_some h2
    have hpk := List.find?_some h2
    simp only [beq_iff_eq] at hpk
    rcases h1 : List.find? (fun kv => kv.1 == k) l1 with _ | kv'
    · exfalso
      have hmem := hp.mem_iff.mpr hkv2
      have := List.find?_eq_none.mp h1 kv hmem
      simp only [beq_iff_eq] at this
      exact this hpk
    · have hkv1 : kv' ∈ l2 := hp.mem_iff.mp (List.mem_of_find?_eq_some h1)
      have hpk' := List.find?_some h1
      simp only [beq_iff_eq] at hpk'
      have hkk : kv'.1 = kv.1 := by
        rw [hpk', hpk]
      rw [h1, h2, eq_of_mem_of_nodup_keys l2 hn kv' kv hkv1 hkv2 hkk]

theorem pyLookup_sortEntries (d : PyDict) (hn : (d.map Prod.fst).Nodup) (k : String) :
    pyLookup k (sortEntries d) = pyLookup k d := by
  rw [pyLookup, pyLookup, find?_eq_of_perm (sortEntries d) d (sortEntries_perm d) hn k]

/-! `str.strip()` is the identity on brace-delimited text. -/

theorem pyStrip_braced (ys : List Char) :
    pyStrip (String.mk ('\x7b' :: ys ++ ['\x7d'])) = String.mk ('\x7b' :: ys ++ ['\x7d']) := by
  rw [pyStrip]
  have h1 : ('\x7b' :: ys ++ ['\x7d']).dropWhile pyIsSpace = '\x7b' :: ys ++ ['\x7d'] := by
    rw [List.cons_append, List.dropWhile_cons]
    simp [pyIsSpace]
  rw [show (String.mk ('\x7b' :: ys ++ ['\x7d'])).toList = '\x7b' :: ys ++ ['\x7d'] from rfl, h1]
  have h2 : ('\x7b' :: ys ++ ['\x7d']).reverse = '\x7d' :: ('\x7b' :: ys).reverse := by
    rw [List.reverse_append, List.reverse_singleton, List.singleton_append]
  rw [h2, List.dropWhile_cons]
  simp only [pyIsSpace]
  rw [if_neg (by decide)]
  rw [← h2, List.reverse_reverse]

/-! Round-trip of the pretty-printed entry lines of a flat object. -/

theorem head_not_ws (c : Char) (cs : List Char) (h : isWsB c = false) :
    skipWs (c :: cs) = c :: cs :=
  skipWs_not (c :: cs) (fun d hd => by
    rw [List.head?_cons, Option.some.injEq] at hd
    subst hd
    exact h)

theorem numBoundary_cons (c : Char) (cs : List Char)
    (h : c.isDigit = false ∧ c ≠ '.' ∧ c ≠ 'e' ∧ c ≠ 'E') : numBoundary (c :: cs) := by
  intro d hd
  rw [List.head?_cons, Option.some.injEq] at hd
  subst hd
  exact h

set_option maxHeartbeats 2000000 in
theorem parseEntries_encode (lvl lvl2 : Nat) (es : PyDict) :
    ∀ (ws rest : List Char) (f : Nat), allWs ws →
      (∀ kv ∈ es, ScalarOK kv.2) → es ≠ [] → es.length + 1 ≤ f →
      parseEntries f (ws ++ List.intercalate [',', '\n'] (es.map (entryChars lvl)) ++
        '\n' :: indentChars lvl2 ++ '\x7d' :: rest) = some (es, rest) := by
  induction es with
  | nil =>
    intro ws rest f _ _ hne _
    exact absurd rfl hne
  | cons kv tl ih =>
    intro ws rest f hws hok _ hf
    simp only [List.length_cons, List.length_nil] at hf
    rcases tl with _ | ⟨kv2, tl0⟩
    · -- single entry
      rw [List.map_cons, List.map_nil, intercalate_one, entryChars, encodeStrChars]
      simp only [List.cons_append, List.append_assoc, List.singleton_append, List.nil_append]
      rcases f with _ | g
      · omega
      rw [parseEntries, skipWs_append_ws ws _ hws,
        skipWs_append_ws (indentChars lvl) _ (allWs_indent lvl),
        head_not_ws '"' _ (by decide)]
      split
      · rename_i r1 heq
        simp only [List.cons.injEq, true_and] at heq
        subst heq
        rw [parseStringBody_encode kv.1.toList _ _ (by
          rw [List.length_append]
          omega)]
        split
        · rename_i heq2
          exact Option.noConfusion heq2
        · rename_i k r1 heq2
          simp only [Option.some.injEq, Prod.mk.injEq] at heq2
          obtain ⟨hk, hr⟩ := heq2
          subst hk
          subst hr
          rw [head_not_ws ':' _ (by decide)]
          split
          · rename_i r2 heq3
            simp only [List.cons.injEq, true_and] at heq3
            subst heq3
            rcases g with _ | h
            · omega
            rw [parseVal_cons_ws (h + 1) ' ' _ (by decide),
              parseVal_scalar h kv.2 _ (hok kv (List.mem_cons_self kv []))
                (numBoundary_cons '\n' _ (by decide))]
            split
            · rename_i heq4
              exact Option.noConfusion heq4
            · rename_i v r3 heq4
              simp only [Option.some.injEq, Prod.mk.injEq] at heq4
              obtain ⟨hv, hr3⟩ := heq4
              subst hv
              subst hr3
              rw [skipWs_cons_ws '\n' _ (by decide),
                skipWs_append_ws (indentChars lvl2) _ (allWs_indent lvl2),
                head_not_ws '\x7d' _ (by decide)]
              split
              · rename_i r4 heq5
                simp only [List.cons.injEq] at heq5
                exact absurd heq5.1 (by decide)
              · rename_i r4 heq5
                simp only [List.cons.injEq, true_and] at heq5
                subst heq5
                rfl
              · rename_i hne2 h1 h2
                exact (h2 _ rfl).elim
          · rename_i hne2 h1
            exact (h1 _ rfl).elim
      · rename_i hne2 h1
        exact (h1 _ rfl).elim
    · -- first entry followed by more
      rw [List.map_cons, List.map_cons, intercalate_two, entryChars, encodeStrChars]
      simp only [List.cons_append, List.append_assoc, List.singleton_append, List.nil_append]
      rcases f with _ | g
      · omega
      rw [parseEntries, skipWs_append_ws ws _ hws,
        skipWs_append_ws (indentChars lvl) _ (allWs_indent lvl),
        head_not_ws '"' _ (by decide)]
      split
      · rename_i r1 heq
        simp only [List.cons.injEq, true_and] at heq
        subst heq
        rw [parseStringBody_encode kv.1.toList _ _ (by
          rw [List.length_append]
          omega)]
        split
        · rename_i heq2
          exact Option.noConfusion heq2
        · rename_i k r1 heq2
          simp only [Option.some.injEq, Prod.mk.injEq] at heq2
          obtain ⟨hk, hr⟩ := heq2
          subst hk
          subst hr
          rw [head_not_ws ':' _ (by decide)]
          split
          · rename_i r2 heq3
            simp only [List.cons.injEq, true_and] at heq3
            subst heq3
            rcases g with _ | h
            · omega
            rw [parseVal_cons_ws (h + 1) ' ' _ (by decide),
              parseVal_scalar h kv.2 _ (hok kv (List.mem_cons_self kv _))
                (numBoundary_cons ',' _ (by decide))]
            split
            · rename_i heq4
              exact Option.noConfusion heq4
            · rename_i v r3 heq4
              simp only [Option.some.injEq, Prod.mk.injEq] at heq4
              obtain ⟨hv, hr3⟩ := heq4
              subst hv
              subst hr3
              rw [head_not_ws ',' _ (by decide)]
              split
              · rename_i r4 heq5
                simp only [List.cons.injEq, true_and] at heq5
                subst heq5
                rw [parseEntries_cons_ws (h + 1) '\n' _ (by decide)]
                have hrec := ih [] rest (h + 1) allWs_nil
                  (fun kv' hkv' => hok kv' (List.mem_cons_of_mem kv hkv'))
                  (List.cons_ne_nil kv2 tl0) (by
                    simp only [List.length_cons] at hf ⊢
                    omega)
                simp only [List.nil_append, List.map_cons, List.append_assoc,
                  List.cons_append] at hrec
                rw [hrec]
                rfl
              · rename_i r4 heq5
                simp only [List.cons.injEq] at heq5
                exact absurd heq5.1 (by decide)
              · rename_i hne2 h1 h2
                exact (h1 _ rfl).elim
          · rename_i hne2 h1
            exact (h1 _ rfl).elim
      · rename_i hne2 h1
        exact (h1 _ rfl).elim

/-! Round-trip of a pretty-printed flat object as a JSON value. -/

theorem skipWs_entries (L : Nat) (es : PyDict) (hne : es ≠ []) (T : List Char) :
    ∃ Z, skipWs (List.intercalate [',', '\n'] (es.map (entryChars L)) ++ T) = '"' :: Z := by
  rcases es with _ | ⟨kv, tl⟩
  · exact absurd rfl hne
  rcases tl with _ | ⟨kv2, tl0⟩
  · rw [List.map_cons, List.map_nil, intercalate_one, entryChars, encodeStrChars]
    simp only [List.cons_append, List.append_assoc, List.singleton_append, List.nil_append]
    rw [skipWs_append_ws (indentChars L) _ (allWs_indent L), head_not_ws '"' _ (by decide)]
    exact ⟨_, rfl⟩
  · rw [List.map_cons, List.map_cons, intercalate_two, entryChars, encodeStrChars]
    simp only [List.cons_append, List.append_assoc, List.singleton_append, List.nil_append]
    rw [skipWs_append_ws (indentChars L) _ (allWs_indent L), head_not_ws '"' _ (by decide)]
    exact ⟨_, rfl⟩

set_option maxHeartbeats 2000000 in
theorem parseVal_obj (lvl : Nat) (d : PyDict) (hwf : DictWF d) (ws rest : List Char)
    (hws : allWs ws) : ∀ f, d.length + 2 ≤ f →
    parseVal f (ws ++ flatObjChars lvl d ++ rest) =
      some (JVal.jobj (sortEntries d), rest) := by
  intro f hf
  rcases f with _ | g
  · omega
  rcases hse : sortEntries d with _ | ⟨kv0, es0⟩
  · -- empty object
    rw [flatObjChars, hse]
    simp only [List.cons_append, List.append_assoc, List.singleton_append, List.nil_append]
    rw [parseVal, skipWs_append_ws ws _ hws, head_not_ws '\x7b' _ (by decide)]
    split
    · rename_i heq
      exact (List.cons_ne_nil _ _ heq).elim
    · rename_i r1 heq
      simp only [List.cons.injEq] at heq
      exact absurd heq.1 (by decide)
    · rename_i r1 heq
      simp only [List.cons.injEq] at heq
      exact absurd heq.1 (by decide)
    · rename_i r1 heq
      simp only [List.cons.injEq, true_and] at heq
      subst heq
      rw [head_not_ws '\x7d' _ (by decide)]
      split
      · rename_i r2 heq2
        simp only [List.cons.injEq, true_and] at heq2
        rw [← heq2]
      · rename_i hne h1
        exact (h1 _ rfl).elim
    · rename_i r1 heq
      simp only [List.cons.injEq] at heq
      exact absurd heq.1 (by decide)
    · rename_i r1 heq
      simp only [List.cons.injEq] at heq
      exact absurd heq.1 (by decide)
    · rename_i hne h1 h2 h3 h4 h5 h6
      exact (h4 _ rfl).elim
  · -- non-empty object
    have hlen : (kv0 :: es0).length = d.length := by
      rw [← hse]
      exact sortEntries_length d
    rw [flatObjChars, hse]
    simp only [List.cons_append, List.append_assoc, List.singleton_append, List.nil_append]
    rw [parseVal, skipWs_append_ws ws _ hws, head_not_ws '\x7b' _ (by decide)]
    split
    · rename_i heq
      exact (List.cons_ne_nil _ _ heq).elim
    · rename_i r1 heq
      simp only [List.cons.injEq] at heq
      exact absurd heq.1 (by decide)
    · rename_i r1 heq
      simp only [List.cons.injEq] at heq
      exact absurd heq.1 (by decide)
    · rename_i r1 heq
      simp only [List.cons.injEq, true_and] at heq
      subst heq
      have hok : ∀ kv ∈ kv0 :: es0, ScalarOK kv.2 := by
        intro kv hkv
        exact hwf.2 kv ((mem_sortEntries d kv).mp (hse ▸ hkv))
      rcases g with _ | g2
      · simp only [List.length_cons] at hlen
        omega
      obtain ⟨Z, hZ⟩ := skipWs_entries (lvl + 1) (kv0 :: es0) (List.cons_ne_nil kv0 es0)
        ('\n' :: (indentChars lvl ++ '\x7d' :: rest))
      have henc := parseEntries_encode (lvl + 1) lvl (kv0 :: es0) [] rest (g2 + 1)
        allWs_nil hok (List.cons_ne_nil kv0 es0) (by
          rw [hlen]
          omega)
      simp only [List.nil_append, List.cons_append] at henc
      split
      · rename_i r2 heq2
        rw [skipWs_cons_ws '\n' _ (by decide), hZ] at heq2
        simp only [List.cons.injEq] at heq2
        exact absurd heq2.1 (by decide)
      · rename_i r2 heq2
        rw [skipWs_cons_ws '\n' _ (by decide), parseEntries_skipWs]
        simp only [List.cons_append, List.append_assoc] at henc
        rw [henc]
    · rename_i r1 heq
      simp only [List.cons.injEq] at heq
      exact absurd heq.1 (by decide)
    · rename_i r1 heq
      simp only [List.cons.injEq] at heq
      exact absurd heq.1 (by decide)
    · rename_i hne h1 h2 h3 h4 h5 h6
      exact (h4 _ rfl).elim

/-! Round-trip of the replica-dict array items. -/

theorem jsonFuel_pos (ds : List PyDict) : 1 ≤ jsonFuel ds := by
  induction ds with
  | nil => exact le_refl 1
  | cons d tl ih =>
    rw [jsonFuel, List.foldr_cons]
    rw [jsonFuel] at ih
    omega

set_option maxHeartbeats 2000000 in
theorem parseItems_encode (ds : List PyDict) :
    ∀ (ws rest : List Char) (f : Nat), allWs ws →
      (∀ d ∈ ds, DictWF d) → ds ≠ [] → jsonFuel ds ≤ f →
      parseItems f (ws ++ List.intercalate [',', '\n']
          (ds.map (fun d => indentChars 2 ++ flatObjChars 2 d)) ++
        '\n' :: indentChars 1 ++ ']' :: rest) =
      some (ds.map (fun d => JVal.jobj (sortEntries d)), rest) := by
  induction ds with
  | nil =>
    intro ws rest f _ _ hne _
    exact absurd rfl hne
  | cons d tl ih =>
    intro ws rest f hws hwf _ hf
    simp only [jsonFuel, List.foldr_cons] at hf
    rcases tl with _ | ⟨d2, tl0⟩
    · -- single item
      simp only [List.map_cons, List.map_nil, List.foldr_nil] at hf ⊢
      rw [intercalate_one]
      simp only [List.cons_append, List.append_assoc, List.nil_append]
      rcases f with _ | g
      · omega
      rw [parseItems]
      have hobj := parseVal_obj 2 d (hwf d (List.mem_cons_self d []))
        (ws ++ indentChars 2) ('\n' :: (indentChars 1 ++ ']' :: rest))
        (allWs_append ws (indentChars 2) hws (allWs_indent 2)) g (by omega)
      simp only [List.append_assoc] at hobj
      rw [hobj]
      split
      · rename_i heq
        exact Option.noConfusion heq
      · rename_i v r1 heq
        simp only [Option.some.injEq, Prod.mk.injEq] at heq
        obtain ⟨hv, hr⟩ := heq
        subst hv
        subst hr
        rw [skipWs_cons_ws '\n' _ (by decide),
          skipWs_append_ws (indentChars 1) _ (allWs_indent 1),
          head_not_ws ']' _ (by decide)]
        split
        · rename_i r2 heq2
          simp only [List.cons.injEq] at heq2
          exact absurd heq2.1 (by decide)
        · rename_i r2 heq2
          simp only [List.cons.injEq, true_and] at heq2
          subst heq2
          rfl
        · rename_i hne2 h1 h2
          exact (h2 _ rfl).elim
    · -- first item followed by more
      simp only [List.map_cons] at hf ⊢
      rw [intercalate_two]
      simp only [List.cons_append, List.append_assoc, List.nil_append]
      rcases f with _ | g
      · have := jsonFuel_pos (d2 :: tl0)
        rw [jsonFuel] at this
        simp only [List.foldr_cons] at this
        omega
      rw [parseItems]
      have hg : d.length + 2 ≤ g := by
        have := jsonFuel_pos (d2 :: tl0)
        rw [jsonFuel] at this
        simp only [List.foldr_cons] at this
        omega
      have hobj := parseVal_obj 2 d (hwf d (List.mem_cons_self d _))
        (ws ++ indentChars 2)
        (',' :: '\n' :: (List.intercalate [',', '\n']
            ((indentChars 2 ++ flatObjChars 2 d2) ::
              List.map (fun d => indentChars 2 ++ flatObjChars 2 d) tl0) ++
          ('\n' :: (indentChars 1 ++ ']' :: rest))))
        (allWs_append ws (indentChars 2) hws (allWs_indent 2)) g hg
      simp only [List.append_assoc] at hobj
      rw [hobj]
      split
      · rename_i heq
        exact Option.noConfusion heq
      · rename_i v r1 heq
        simp only [Option.some.injEq, Prod.mk.injEq] at heq
        obtain ⟨hv, hr⟩ := heq
        subst hv
        subst hr
        rw [head_not_ws ',' _ (by decide)]
        split
        · rename_i r2 heq2
          simp only [List.cons.injEq, true_and] at heq2
          subst heq2
          have hrec := ih ['\n'] rest g (by
              intro c hc
              rcases List.mem_singleton.mp hc with rfl
              rfl)
            (fun d' hd' => hwf d' (List.mem_cons_of_mem d hd'))
            (List.cons_ne_nil d2 tl0) (by
              simp only [jsonFuel, List.foldr_cons] at hf ⊢
              omega)
          simp only [List.singleton_append, List.map_cons, List.append_assoc,
            List.cons_append, List.nil_append] at hrec
          rw [hrec]
        · rename_i r2 heq2
          simp only [List.cons.injEq] at heq2
          exact absurd heq2.1 (by decide)
        · rename_i hne2 h1 h2
          exact (h1 _ rfl).elim

/-! Round-trip of the replicaInfos array. -/

theorem flatObj_head (lvl : Nat) (d : PyDict) : ∃ t, flatObjChars lvl d = '\x7b' :: t := by
  rcases hse : sortEntries d with _ | ⟨kv, es⟩
  · rw [flatObjChars, hse]
    exact ⟨_, rfl⟩
  · rw [flatObjChars, hse]
    exact ⟨_, rfl⟩

theorem skipWs_items (ds : List PyDict) (hne : ds ≠ []) (T : List Char) :
    ∃ Z, skipWs (List.intercalate [',', '\n']
        (ds.map (fun d => indentChars 2 ++ flatObjChars 2 d)) ++ T) = '\x7b' :: Z := by
  rcases ds with _ | ⟨d, tl⟩
  · exact absurd rfl hne
  obtain ⟨t, ht⟩ := flatObj_head 2 d
  rcases tl with _ | ⟨d2, tl0⟩
  · simp only [List.map_cons, List.map_nil]
    rw [intercalate_one, ht]
    simp only [List.cons_append, List.append_assoc, List.nil_append]
    rw [skipWs_append_ws (indentChars 2) _ (allWs_indent 2), head_not_ws '\x7b' _ (by decide)]
    exact ⟨_, rfl⟩
  · simp only [List.map_cons]
    rw [intercalate_two, ht]
    simp only [List.cons_append, List.append_assoc, List.nil_append]
    rw [skipWs_append_ws (indentChars 2) _ (allWs_indent 2), head_not_ws '\x7b' _ (by decide)]
    exact ⟨_, rfl⟩

set_option maxHeartbeats 2000000 in
theorem parseVal_arr_nil (ws rest : List Char) (hws : allWs ws) (f : Nat) (hf : 1 ≤ f) :
    parseVal f (ws ++ '[' :: ']' :: rest) = some (JVal.jarr [], rest) := by
  rcases f with _ | g
  · omega
  rw [parseVal, skipWs_append_ws ws _ hws, head_not_ws '[' _ (by decide)]
  split
  · rename_i heq
    exact (List.cons_ne_nil _ _ heq).elim
  · rename_i r1 heq
    simp only [List.cons.injEq] at heq
    exact absurd heq.1 (by decide)
  · rename_i r1 heq
    simp only [List.cons.injEq, true_and] at heq
    subst heq
    rw [head_not_ws ']' _ (by decide)]
    split
    · rename_i r2 heq2
      simp only [List.cons.injEq, true_and] at heq2
      rw [← heq2]
    · rename_i hne h1
      exact (h1 _ rfl).elim
  · rename_i r1 heq
    simp only [List.cons.injEq] at heq
    exact absurd heq.1 (by decide)
  · rename_i r1 heq
    simp only [List.cons.injEq] at heq
    exact absurd heq.1 (by decide)
  · rename_i r1 heq
    simp only [List.cons.injEq] at heq
    exact absurd heq.1 (by decide)
  · rename_i hne h1 h2 h3 h4 h5 h6
    exact (h3 _ rfl).elim

set_option maxHeartbeats 2000000 in
theorem parseVal_arr (ds : List PyDict) (hne : ds ≠ []) (hwf : ∀ d ∈ ds, DictWF d)
    (ws rest : List Char) (hws : allWs ws) (f : Nat) (hf : jsonFuel ds + 1 ≤ f) :
    parseVal f (ws ++ '[' :: '\n' :: (List.intercalate [',', '\n']
        (ds.map (fun d => indentChars 2 ++ flatObjChars 2 d)) ++
      '\n' :: (indentChars 1 ++ ']' :: rest))) =
      some (JVal.jarr (ds.map (fun d => JVal.jobj (sortEntries d))), rest) := by
  rcases f with _ | g
  · omega
  obtain ⟨Z, hZ⟩ := skipWs_items ds hne ('\n' :: (indentChars 1 ++ ']' :: rest))
  rw [parseVal, skipWs_append_ws ws _ hws, head_not_ws '[' _ (by decide)]
  split
  · rename_i heq
    exact (List.cons_ne_nil _ _ heq).elim
  · rename_i r1 heq
    simp only [List.cons.injEq] at heq
    exact absurd heq.1 (by decide)
  · rename_i r1 heq
    simp only [List.cons.injEq, true_and] at heq
    subst heq
    have hitems := parseItems_encode ds [] rest g allWs_nil hwf hne (by omega)
    simp only [List.nil_append, List.append_assoc, List.cons_append] at hitems
    split
    · rename_i r2 heq2
      rw [skipWs_cons_ws '\n' _ (by decide), hZ] at heq2
      simp only [List.cons.injEq] at heq2
      exact absurd heq2.1 (by decide)
    · rename_i r2 heq2
      rw [skipWs_cons_ws '\n' _ (by decide), parseItems_skipWs, hitems]
  · rename_i r1 heq
    simp only [List.cons.injEq] at heq
    exact absurd heq.1 (by decide)
  · rename_i r1 heq
    simp only [List.cons.injEq] at heq
    exact absurd heq.1 (by decide)
  · rename_i r1 heq
    simp only [List.cons.injEq] at heq
    exact absurd heq.1 (by decide)
  · rename_i hne2 h1 h2 h3 h4 h5 h6
    exact (h3 _ rfl).elim

/-! Length lower bounds: the manifest text is long enough to fuel the parser. -/

theorem encodeStrChars_len (s : String) : 2 ≤ (encodeStrChars s).length := by
  rw [encodeStrChars]
  simp only [List.length_append, List.length_cons, List.length_nil]
  omega

theorem entryChars_len (lvl : Nat) (kv : String × JVal) : 1 ≤ (entryChars lvl kv).length := by
  rw [entryChars]
  simp only [List.length_append, List.length_cons]
  have := encodeStrChars_len kv.1
  omega

theorem entriesText_len (lvl : Nat) (es : PyDict) :
    es ≠ [] → es.length ≤ (List.intercalate [',', '\n'] (es.map (entryChars lvl))).length := by
  induction es with
  | nil =>
    intro hne
    exact absurd rfl hne
  | cons kv tl ih =>
    intro _
    rcases tl with _ | ⟨kv2, tl0⟩
    · rw [List.map_cons, List.map_nil, intercalate_one]
      simp only [List.length_cons, List.length_nil]
      have := entryChars_len lvl kv
      omega
    · rw [List.map_cons, List.map_cons, intercalate_two]
      have hih := ih (List.cons_ne_nil kv2 tl0)
      rw [List.map_cons] at hih
      simp only [List.length_append, List.length_cons] at hih ⊢
      have := entryChars_len lvl kv
      omega

theorem flatObj_len (lvl : Nat) (d : PyDict) :
    d.length + 2 ≤ (flatObjChars lvl d).length := by
  rcases hse : sortEntries d with _ | ⟨kv, es0⟩
  · have hd : d = [] := sortEntries_eq_nil d hse
    subst hd
    rw [flatObjChars, hse]
    simp
  · have hlen : (kv :: es0).length = d.length := by
      rw [← hse]
      exact sortEntries_length d
    rw [flatObjChars, hse]
    have hI := entriesText_len (lvl + 1) (kv :: es0) (List.cons_ne_nil kv es0)
    simp only [List.length_cons] at hlen hI
    simp only [List.length_append, List.length_cons, List.length_nil]
    omega

theorem itemsText_len (ds : List PyDict) :
    ds ≠ [] → jsonFuel ds ≤ (List.intercalate [',', '\n']
      (ds.map (fun d => indentChars 2 ++ flatObjChars 2 d))).length := by
  induction ds with
  | nil =>
    intro hne
    exact absurd rfl hne
  | cons d tl ih =>
    intro _
    rcases tl with _ | ⟨d2, tl0⟩
    · rw [List.map_cons, List.map_nil, intercalate_one, jsonFuel]
      simp only [List.foldr_cons, List.foldr_nil, List.length_append, indentChars,
        List.length_replicate]
      have := flatObj_len 2 d
      omega
    · rw [List.map_cons, List.map_cons, intercalate_two, jsonFuel]
      have hih := ih (List.cons_ne_nil d2 tl0)
      rw [List.map_cons, jsonFuel] at hih
      simp only [List.foldr_cons, List.length_append, List.length_cons, indentChars,
        List.length_replicate] at hih ⊢
      have := flatObj_len 2 d
      omega

theorem manifest_len (ds : List PyDict) (hne : ds ≠ []) :
    jsonFuel ds + 2 ≤ (manifestChars ds).length := by
  rcases ds with _ | ⟨d0, tl⟩
  · exact absurd rfl hne
  simp only [manifestChars]
  have hI := itemsText_len (d0 :: tl) (List.cons_ne_nil d0 tl)
  rw [jsonFuel] at hI ⊢
  simp only [List.foldr_cons, List.length_append, List.length_cons] at hI ⊢
  omega

/-! Assembling the full manifest round-trip. -/

theorem stringToList_mk (l : List Char) : (String.mk l).toList = l := rfl

theorem manifest_braced (ds : List PyDict) :
    ∃ ys, manifestChars ds = '\x7b' :: ys ++ ['\x7d'] := by
  rcases ds with _ | ⟨d0, tl⟩
  · refine ⟨'\n' :: indentChars 1 ++ encodeStrChars "replicaInfos" ++
      ':' :: ' ' :: ['[', ']'] ++ ['\n'], ?_⟩
    simp only [manifestChars, List.cons_append, List.append_assoc, List.nil_append,
      List.singleton_append]
  · refine ⟨'\n' :: indentChars 1 ++ encodeStrChars "replicaInfos" ++
      ':' :: ' ' :: ('[' :: '\n' :: List.intercalate [',', '\n']
        ((d0 :: tl).map (fun d => indentChars 2 ++ flatObjChars 2 d)) ++
        '\n' :: indentChars 1 ++ [']']) ++ ['\n'], ?_⟩
    simp only [manifestChars, List.cons_append, List.append_assoc, List.nil_append,
      List.singleton_append]

set_option maxHeartbeats 4000000 in
theorem parseEntries_top (ds : List PyDict) (hne : ds ≠ []) (hwf : ∀ d ∈ ds, DictWF d)
    (n2 : Nat) (hfuel : jsonFuel ds ≤ n2) :
    parseEntries (n2 + 1 + 1) (indentChars 1 ++ '"' ::
      (("replicaInfos").toList.flatMap escapeChar ++ '"' :: ':' :: ' ' :: '[' :: '\n' ::
        (List.intercalate [',', '\n'] (List.map (fun d => indentChars 2 ++ flatObjChars 2 d) ds) ++
          '\n' :: (indentChars 1 ++ [']', '\n', '\x7d'])))) =
      some ([("replicaInfos",
        JVal.jarr (ds.map (fun d => JVal.jobj (sortEntries d))))], []) := by
  rw [parseEntries, skipWs_append_ws (indentChars 1) _ (allWs_indent 1),
    head_not_ws '"' _ (by decide)]
  split
  · rename_i r3 heq3
    simp only [List.cons.injEq, true_and] at heq3
    subst heq3
    rw [parseStringBody_encode ("replicaInfos").toList _ _ (by
      rw [List.length_append]
      omega)]
    split
    · rename_i heq4
      exact Option.noConfusion heq4
    · rename_i k r4 heq4
      simp only [Option.some.injEq, Prod.mk.injEq] at heq4
      obtain ⟨hk, hr⟩ := heq4
      subst hk
      subst hr
      rw [head_not_ws ':' _ (by decide)]
      split
      · rename_i r5 heq5
        simp only [List.cons.injEq, true_and] at heq5
        subst heq5
        rw [parseVal_cons_ws (n2 + 1) ' ' _ (by decide)]
        have harr := parseVal_arr ds hne hwf
          [] ['\n', '\x7d'] allWs_nil (n2 + 1) (by omega)
        simp only [List.nil_append] at harr
        rw [harr]
        split
        · rename_i heq6
          exact Option.noConfusion heq6
        · rename_i v r6 heq6
          simp only [Option.some.injEq, Prod.mk.injEq] at heq6
          obtain ⟨hv, hr6⟩ := heq6
          subst hv
          subst hr6
          rw [show skipWs ['\n', '\x7d'] = ['\x7d'] from rfl]
          split
          · rename_i r7 heq7
            simp only [List.cons.injEq] at heq7
            exact absurd heq7.1 (by decide)
          · rename_i r7 heq7
            simp only [List.cons.injEq, true_and] at heq7
            subst heq7
            rfl
          · rename_i hne2 h1 h2
            exact (h2 _ rfl).elim
      · rename_i hne2 h1
        exact (h1 _ rfl).elim
  · rename_i hne2 h1
    exact (h1 _ rfl).elim

set_option maxHeartbeats 4000000 in
theorem parseVal_manifest (ds : List PyDict) (hne : ds ≠ []) (hwf : ∀ d ∈ ds, DictWF d) :
    ∀ F, jsonFuel ds + 2 ≤ F →
    parseVal (F + 1) (manifestChars ds) =
      some (JVal.jobj [("replicaInfos",
        JVal.jarr (ds.map (fun d => JVal.jobj (sortEntries d))))], []) := by
  intro F hF
  rcases ds with _ | ⟨d0, tl⟩
  · exact absurd rfl hne
  rcases F with _ | n1
  · omega
  simp only [manifestChars, encodeStrChars, List.cons_append, List.append_assoc,
    List.nil_append, List.singleton_append]
  rw [parseVal, head_not_ws '\x7b' _ (by decide)]
  split
  · rename_i heq
    exact (List.cons_ne_nil _ _ heq).elim
  · rename_i r1 heq
    simp only [List.cons.injEq] at heq
    exact absurd heq.1 (by decide)
  · rename_i r1 heq
    simp only [List.cons.injEq] at heq
    exact absurd heq.1 (by decide)
  · rename_i r1 heq
    simp only [List.cons.injEq, true_and] at heq
    subst heq
    split
    · rename_i r2 heq2
      rw [skipWs_cons_ws '\n' _ (by decide),
        skipWs_append_ws (indentChars 1) _ (allWs_indent 1),
        head_not_ws '"' _ (by decide)] at heq2
      simp only [List.cons.injEq] at heq2
      exact absurd heq2.1 (by decide)
    · rename_i r2 heq2
      rw [skipWs_cons_ws '\n' _ (by decide), parseEntries_skipWs]
      rcases n1 with _ | n2
      · have := jsonFuel_pos (d0 :: tl)
        omega
      rw [parseEntries_top (d0 :: tl) (List.cons_ne_nil d0 tl) hwf n2 (by omega)]
  · rename_i r1 heq
    simp only [List.cons.injEq] at heq
    exact absurd heq.1 (by decide)
  · rename_i r1 heq
    simp only [List.cons.injEq] at heq
    exact absurd heq.1 (by decide)
  · rename_i hne2 h1 h2 h3 h4 h5 h6
    exact (h4 _ rfl).elim

/-- C9: writing a block manifest of well-formed flat replica dicts with the
`_pretty_print_json` writer (4-space indent, `(",", ": ")` separators, sorted
keys) and re-reading it with the `_json_loads` reader yields an equal
structure: the object `\x7b "replicaInfos": [...] \x7d` whose replica dicts
carry exactly the original key/value pairs (keys in sorted order, every value
preserved), so the writer/parser pair is lossless. -/
theorem C9_manifest_roundtrip (ds : List PyDict) (hwf : ∀ d ∈ ds, DictWF d) :
    readJson (writeManifestDicts ds) =
      some (JVal.jobj [("replicaInfos",
        JVal.jarr (ds.map (fun d => JVal.jobj (sortEntries d))))]) ∧
    ∀ d ∈ ds, ∀ k, pyLookup k (sortEntries d) = pyLookup k d := by
  constructor
  · rcases ds with _ | ⟨d0, tl⟩
    · rfl
    · have hpv := parseVal_manifest (d0 :: tl) (List.cons_ne_nil d0 tl) hwf
        ((manifestChars (d0 :: tl)).length)
        (manifest_len (d0 :: tl) (List.cons_ne_nil d0 tl))
      obtain ⟨ys, hys⟩ := manifest_braced (d0 :: tl)
      rw [writeManifestDicts, readJson, hys, pyStrip_braced ys, stringToList_mk, ← hys, hpv]
      rfl
  · intro d hd k
    exact pyLookup_sortEntries d (hwf d hd).1 k

/-- Witness for C9: a concrete one-dict block manifest round-trips. -/
theorem C9_witness :
    (∀ d ∈ [[("a", JVal.jint 7), ("b", JVal.jstr "x")]], DictWF d) ∧
    (readJson (writeManifestDicts [[("a", JVal.jint 7), ("b", JVal.jstr "x")]]) =
      some (JVal.jobj [("replicaInfos",
        JVal.jarr ([[("a", JVal.jint 7), ("b", JVal.jstr "x")]].map
          (fun d => JVal.jobj (sortEntries d))))]) ∧
    ∀ d ∈ [[("a", JVal.jint 7), ("b", JVal.jstr "x")]], ∀ k,
      pyLookup k (sortEntries d) = pyLookup k d) := by
  have h : ∀ d ∈ [[("a", JVal.jint 7), ("b", JVal.jstr "x")]], DictWF d := by
    intro d hd
    rcases List.mem_singleton.mp hd with rfl
    constructor
    · decide
    · intro kv hkv
      rcases List.mem_cons.mp hkv with rfl | hkv
      · trivial
      rcases List.mem_cons.mp hkv with rfl | hkv
      · trivial
      exact absurd hkv (List.not_mem_nil kv)
  exact ⟨h, C9_manifest_roundtrip [[("a", JVal.jint 7), ("b", JVal.jstr "x")]] h⟩
